import Mathlib

/-!
go-week: weekly report generator

A shallow embedding of `goweek.go` together with the parts of the Go standard
library it calls (`time`, `fmt`, `strings`, `os`, `path/filepath`). The
embedding comes first; the properties of the date resolution, of the template
substitution and of the report writer are proved after it.

Conventions of the embedding.

* A Go `string` is a Lean `String`; substring reasoning is done on its list of
  characters. All placeholders and all inserted values are ASCII.
* A Go `(T, error)` result is `Except Error T`; `nil` is `Except.ok`.
* The clock, the time zone database, the profile files, the file system below
  the reports root and the external programs are explicit inputs (`Env`, `Node`).
  Console output is not modelled.
* `time.Time` values are kept as the wall-clock second count in the location
  of the value (what `Time.abs` computes in Go). Go offsets this count so that
  it is non-negative (its epoch is 1 January of year -292277022399); here the
  count starts on 1 January of year 1, which is a whole number of 400-year
  cycles (and of weeks) later, and `Int` floor division takes the place of
  unsigned division. The calendar arithmetic is otherwise that of Go 1.22.
  `Asia/Hong_Kong` has had the fixed offset UTC+8 since 1979, so adding
  calendar days never meets a zone transition and the wall clock determines
  the instant. Nanoseconds are not observed by any function here and are left
  out.
* A path is the list of its components and the file system is a tree of
  directories and regular files, with POSIX error codes: `os.Stat` finds an
  object or fails with ENOENT, ENOTDIR or EACCES, and `os.IsNotExist` holds
  of ENOENT only.
-/

namespace GoWeek

/-! ## Package `time` -/

def secondsPerMinute : Int := 60
def secondsPerHour : Int := 60 * secondsPerMinute
def secondsPerDay : Int := 24 * secondsPerHour
def secondsPerWeek : Int := 7 * secondsPerDay
def daysPer400Years : Int := 365 * 400 + 97
def daysPer100Years : Int := 365 * 100 + 24
def daysPer4Years : Int := 365 * 4 + 1

/-! Weekdays are numbered as `time.Weekday` (Sunday = 0, ..., Saturday = 6) and
months as `time.Month` (January = 1, ..., December = 12). -/

def Sunday : Int := 0
def Monday : Int := 1
def Tuesday : Int := 2
def Wednesday : Int := 3
def Thursday : Int := 4
def Friday : Int := 5
def Saturday : Int := 6

def February : Int := 2
def March : Int := 3

/-- A `time.Time` in a fixed location: wall-clock seconds since
0001-01-01 00:00:00 in that location. -/
structure Time where
  abs : Int
  deriving DecidableEq, Repr

/-- Cumulative day counts `daysBefore[m]` of a non-leap year. -/
def daysBefore : List Int :=
  [0, 31, 31 + 28, 31 + 28 + 31, 31 + 28 + 31 + 30, 31 + 28 + 31 + 30 + 31,
   31 + 28 + 31 + 30 + 31 + 30, 31 + 28 + 31 + 30 + 31 + 30 + 31,
   31 + 28 + 31 + 30 + 31 + 30 + 31 + 31, 31 + 28 + 31 + 30 + 31 + 30 + 31 + 31 + 30,
   31 + 28 + 31 + 30 + 31 + 30 + 31 + 31 + 30 + 31,
   31 + 28 + 31 + 30 + 31 + 30 + 31 + 31 + 30 + 31 + 30,
   31 + 28 + 31 + 30 + 31 + 30 + 31 + 31 + 30 + 31 + 30 + 31]

def daysBeforeAt (i : Int) : Int := daysBefore.getD i.toNat 0

def isLeap (year : Int) : Bool :=
  year % 4 == 0 && (year % 100 != 0 || year % 400 == 0)

/-- The function `absWeekday`: 1 January of year 1 was a Monday. -/
def absWeekday (abs : Int) : Int :=
  let sec := (abs + Monday * secondsPerDay) % secondsPerWeek
  sec / secondsPerDay

def Time.Weekday (t : Time) : Int := absWeekday t.abs

/-- Year and zero-based day of the year of a day count: the part of `absDate`
that runs when `full` is false. -/
def absYearDay (days : Int) : Int × Int :=
  let d := days
  -- Account for 400 year cycles.
  let n := d / daysPer400Years
  let y := 400 * n
  let d := d - daysPer400Years * n
  -- Cut off 100-year cycles; the last cycle has one extra leap year.
  let n := d / daysPer100Years
  let n := n - n / 4
  let y := y + 100 * n
  let d := d - daysPer100Years * n
  -- Cut off 4-year cycles.
  let n := d / daysPer4Years
  let y := y + 4 * n
  let d := d - daysPer4Years * n
  -- Cut off years within a 4-year cycle.
  let n := d / 365
  let n := n - n / 4
  let y := y + n
  let d := d - 365 * n
  (y + 1, d)

/-- Month and day of the month from the leap flag and the day of the year:
the part of `absDate` that runs when `full` is true. -/
def monthDay (leap : Bool) (yday : Int) : Int × Int :=
  if leap && yday == 31 + 29 - 1 then
    (February, 29)
  else
    let day := if leap && decide (yday > 31 + 29 - 1) then yday - 1 else yday
    -- Estimate month on assumption that every month has 31 days.
    let month := day / 31
    let e := daysBeforeAt (month + 1)
    if day ≥ e then
      (month + 1 + 1, day - e + 1)
    else
      (month + 1, day - daysBeforeAt month + 1)

/-- Result of `absDate(abs, true)`. -/
structure CivilDate where
  year : Int
  month : Int
  day : Int
  yday : Int
  deriving DecidableEq, Repr

def absDate (abs : Int) : CivilDate :=
  let d := abs / secondsPerDay
  let yd := absYearDay d
  let md := monthDay (isLeap yd.1) yd.2
  { year := yd.1, month := md.1, day := md.2, yday := yd.2 }

/-- The function `absClock`: hour, minute and second within the day. -/
def absClock (abs : Int) : Int × Int × Int :=
  let sec := abs % secondsPerDay
  let hour := sec / secondsPerHour
  let sec := sec - hour * secondsPerHour
  let min := sec / secondsPerMinute
  let sec := sec - min * secondsPerMinute
  (hour, min, sec)

/-- The function `norm`: carry `lo` into `hi` so that `0 ≤ lo < base`. -/
def norm (hi lo base : Int) : Int × Int :=
  let r :=
    if lo < 0 then
      let n := (-lo - 1) / base + 1
      (hi - n, lo + n * base)
    else (hi, lo)
  if r.2 ≥ base then
    let n := r.2 / base
    (r.1 + n, r.2 - n * base)
  else r

/-- Days from 1 January of year 1 to 1 January of `year`. -/
def daysSinceEpoch (year : Int) : Int :=
  let y := year - 1
  -- Add in days from 400-year cycles.
  let n := y / 400
  let y := y - 400 * n
  let d := daysPer400Years * n
  -- Add in 100-year cycles.
  let n := y / 100
  let y := y - 100 * n
  let d := d + daysPer100Years * n
  -- Add in 4-year cycles.
  let n := y / 4
  let y := y - 4 * n
  let d := d + daysPer4Years * n
  -- Add in non-leap years.
  d + 365 * y

/-- The function `time.Date` in a location with a fixed offset: the fields may
be outside their usual ranges and are normalised. -/
def Date (year month day hour min sec : Int) : Time :=
  -- Normalize month, overflowing into year.
  let ym := norm year (month - 1) 12
  let year := ym.1
  let month := ym.2 + 1
  -- Normalize sec, min, hour, overflowing into day.
  let ms := norm min sec 60
  let hm := norm hour ms.1 60
  let dh := norm day hm.1 24
  let sec := ms.2
  let min := hm.2
  let hour := dh.2
  let day := dh.1
  -- Compute days since the epoch.
  let d := daysSinceEpoch year
  -- Add in days before this month.
  let d := d + daysBeforeAt (month - 1)
  let d := if isLeap year && decide (month ≥ March) then d + 1 else d
  -- Add in days before today.
  let d := d + (day - 1)
  -- Add in time elapsed today.
  { abs := d * secondsPerDay + (hour * secondsPerHour + min * secondsPerMinute + sec) }

/-- The method `Time.AddDate`. -/
def Time.AddDate (t : Time) (years months days : Int) : Time :=
  let c := absDate t.abs
  let k := absClock t.abs
  Date (c.year + years) (c.month + months) (c.day + days) k.1 k.2.1 k.2.2

/-- The method `Time.ISOWeek`: ISO 8601 year and week number. -/
def Time.ISOWeek (t : Time) : Int × Int :=
  let d := Thursday - absWeekday t.abs
  -- handle Sunday
  let d := if d = 4 then -3 else d
  -- find the Thursday of the calendar week
  let abs := t.abs + d * secondsPerDay
  let yd := absYearDay (abs / secondsPerDay)
  (yd.1, yd.2 / 7 + 1)

/-! ### Decimal formatting -/

/-- Decimal digits of `n`, most significant first, appended in front of `acc`;
`fuel` bounds the number of digits produced. -/
def digitsAux : Nat → Nat → List Char → List Char
  | 0, _, acc => acc
  | fuel + 1, n, acc =>
    let acc := Char.ofNat (48 + n % 10) :: acc
    if n / 10 = 0 then acc else digitsAux fuel (n / 10) acc

/-- Decimal representation of a natural number (`"0"` for zero). -/
def decimal (n : Nat) : List Char := digitsAux (n + 1) n []

/-- The function `appendInt` of package time: the decimal form of `x`, zero
padded on the left to `width` digits, after a minus sign when `x` is negative. -/
def appendInt (x : Int) (width : Nat) : List Char :=
  let ds := decimal x.natAbs
  let padded := List.replicate (width - ds.length) '0' ++ ds
  if x < 0 then '-' :: padded else padded

/-- Expansion of a layout for `Time.Format`. Only the chunks that occur in the
layouts of this program are recognised: `2006` (year), `01` (zero padded
month) and `02` (zero padded day); the separators `/` and `-` start no layout
chunk and are copied. -/
def formatLayout (c : CivilDate) : List Char → List Char
  | '2' :: '0' :: '0' :: '6' :: rest => appendInt c.year 4 ++ formatLayout c rest
  | '0' :: '1' :: rest => appendInt c.month 2 ++ formatLayout c rest
  | '0' :: '2' :: rest => appendInt c.day 2 ++ formatLayout c rest
  | ch :: rest => ch :: formatLayout c rest
  | [] => []

/-- The method `Time.Format`. -/
def Time.Format (t : Time) (layout : String) : String :=
  ⟨formatLayout (absDate t.abs) layout.data⟩

/-! ## Package `fmt` -/

/-- The call `fmt.Sprintf("%02d", n)`: width 2 with the zero flag, the sign
counting towards the width. -/
def sprintf02d (n : Int) : String :=
  let ds := decimal n.natAbs
  if n < 0 then ⟨'-' :: (List.replicate (1 - ds.length) '0' ++ ds)⟩
  else ⟨List.replicate (2 - ds.length) '0' ++ ds⟩

/-! ## Package `strings` -/

/-- Scan for `strings.Replace`, with `old` non-empty: `skip` counts the
characters of a match that are still to be stepped over. At each position
outside a match, an occurrence of `old` starting there is replaced by `new`
and the scan resumes behind it; any other character is copied. -/
def replaceScan (old new : List Char) : Nat → List Char → List Char
  | _, [] => []
  | skip + 1, _ :: s => replaceScan old new skip s
  | 0, c :: s =>
    if old.isPrefixOf (c :: s) then new ++ replaceScan old new (old.length - 1) s
    else c :: replaceScan old new 0 s

/-- The function `strings.ReplaceAll(s, old, new)`: every non-overlapping
occurrence of `old`, found from left to right, is replaced by `new`. An empty
`old` matches before every character and at the end. -/
def ReplaceAll (s old new : String) : String :=
  if old = new then s
  else if old.data = [] then
    ⟨(s.data.map fun c => new.data ++ [c]).flatten ++ new.data⟩
  else ⟨replaceScan old.data new.data 0 s.data⟩

/-! ## Package `path/filepath` and the file system -/

/-- A cleaned path, as its list of components. -/
abbrev Path := List String

/-- The call `filepath.Join(dir, elem)` for an `elem` that is a single
component (not empty, not `.` or `..`, without a separator), which is what
the month label and the report file name are. -/
def filepathJoin (dir : Path) (elem : String) : Path := dir ++ [elem]

/-- Rendering of a path for a command line. -/
def Path.render (p : Path) : String := String.intercalate "/" p

/-- A file system object: a regular file with its content, or a directory
with its search and write permission (for the user of the program) and its
named entries. -/
inductive Node where
  | file (content : String)
  | dir (searchable writable : Bool) (entries : List (String × Node))

/-- Replace the entry called `name`, or add it when there is none. -/
def setEntry (name : String) (n : Node) : List (String × Node) → List (String × Node)
  | [] => [(name, n)]
  | (k, v) :: rest => if k = name then (name, n) :: rest else (k, v) :: setEntry name n rest

/-- The object at a path, whatever the permissions; `none` when a component
is missing or is looked up inside a regular file. -/
def Node.lookup : Node → Path → Option Node
  | n, [] => some n
  | .file _, _ :: _ => none
  | .dir _ _ es, c :: p =>
    match es.lookup c with
    | some child => child.lookup p
    | none => none

/-- Put `n` under the last name of `p`, replacing what is there. Every
directory on the way must be searchable, and the last one writable when a new
entry is made (`create`); `none` when the parent of `p` is not such a
directory. -/
def Node.put (create : Bool) (n : Node) : Node → Path → Option Node
  | _, [] => none
  | .file _, _ :: _ => none
  | .dir s w es, [c] =>
    if s && (w || !create) then some (.dir s w (setEntry c n es)) else none
  | .dir s w es, c :: d :: p =>
    if s then
      match es.lookup c with
      | some child =>
        match Node.put create n child (d :: p) with
        | some child1 => some (.dir s w (setEntry c child1 es))
        | none => none
      | none => none
    else none

abbrev Error := String

/-- The errors of `os.Stat`: a missing component (ENOENT), a component of the
path prefix that is not a directory (ENOTDIR), a directory that may not be
searched (EACCES). -/
inductive StatError where
  | notExist
  | notDir
  | permission
  deriving DecidableEq, Repr

/-- The call `os.Stat(p)`: walks the path from the root. -/
def osStat : Node → Path → Except StatError Node
  | n, [] => .ok n
  | .file _, _ :: _ => .error .notDir
  | .dir s _ es, c :: p =>
    if s then
      match es.lookup c with
      | some child => osStat child p
      | none => .error .notExist
    else .error .permission

/-- The test `os.IsNotExist(err)` on the error of a call of `os.Stat`: true
for ENOENT only, false for a nil error. -/
def osIsNotExist : Except StatError Node → Bool
  | .error .notExist => true
  | _ => false

/-- The call `os.Mkdir(p, 0755)`: creates one directory, searchable and
writable; fails when `p` exists, when the path cannot be walked, or when its
parent is not an existing writable directory. -/
def osMkdir (fs : Node) (p : Path) : Except Error Node :=
  match osStat fs p with
  | .ok _ => .error "mkdir: file exists"
  | .error .notDir => .error "mkdir: not a directory"
  | .error .permission => .error "mkdir: permission denied"
  | .error .notExist =>
    match Node.put true (.dir true true []) fs p with
    | some fs1 => .ok fs1
    | none => .error "mkdir: no such file or directory"

/-- The call `os.WriteFile(p, content, 0644)`: creates the file or replaces
its content; fails when `p` is a directory, when the path cannot be walked,
or when the file is new and its parent is not an existing writable
directory. -/
def osWriteFile (fs : Node) (p : Path) (content : String) : Except Error Node :=
  match osStat fs p with
  | .ok (.dir _ _ _) => .error "open: is a directory"
  | .ok (.file _) =>
    match Node.put false (.file content) fs p with
    | some fs1 => .ok fs1
    | none => .error "open: permission denied"
  | .error .notDir => .error "open: not a directory"
  | .error .permission => .error "open: permission denied"
  | .error .notExist =>
    match Node.put true (.file content) fs p with
    | some fs1 => .ok fs1
    | none => .error "open: no such file or directory"

/-! ## The program `goweek.go` -/

structure GoWeekConfig where
  DocsDir : Path
  TyporaPath : String

/-- What a run reads from outside: the result of loading the time zone, the
clock (already in that zone; it does not advance during a run), the two
profile files and the outcomes of the external programs. -/
structure Env where
  loadLocation : Except Error Unit
  now : Time
  template : Except Error String
  config : Except Error GoWeekConfig
  gitOutput : Path → List String → Except Error String
  startProcess : String → List String → Except Error Unit

/-- The command line flags `--git` and `--last-week`. -/
structure Flags where
  git : Bool
  lastWeek : Bool

structure DateInfo where
  Week : String
  WeekStart : String
  WeekEnd : String
  Month : String
  deriving DecidableEq, Repr

def readTemplate (env : Env) : Except Error String :=
  match env.template with
  | .error err => .error err
  | .ok content => .ok content

def readConfig (env : Env) : Except Error GoWeekConfig :=
  match env.config with
  | .error err => .error err
  | .ok goWeekConfig => .ok goWeekConfig

def gitCommit (env : Env) : Except Error Unit :=
  match readConfig env with
  | .error err => .error err
  | .ok goWeekConfig =>
    match env.gitOutput goWeekConfig.DocsDir ["status", "--porcelain"] with
    | .error err => .error err
    | .ok out =>
      if out.length = 0 then .ok ()
      else
        match env.gitOutput goWeekConfig.DocsDir ["add", "."] with
        | .error err => .error err
        | .ok _ =>
          match env.gitOutput goWeekConfig.DocsDir ["commit", "-m", "update weekly report"] with
          | .error err => .error err
          | .ok _ =>
            match env.gitOutput goWeekConfig.DocsDir ["push"] with
            | .error err => .error err
            | .ok _ => .ok ()

/-- Lines 146-149 of `getDateInfo`: the reference instant, moved back seven
calendar days for `--last-week`. -/
def referenceInstant (env : Env) (lastWeek : Bool) : Time :=
  let now := env.now
  if lastWeek then now.AddDate 0 0 (-7) else now

/-- Lines 154-157: the weekday index with Sunday as 7. -/
def weekDayIndex (now : Time) : Int :=
  let weekDay := now.Weekday
  if now.Weekday = Sunday then 7 else weekDay

/-- Line 159. -/
def weekStart (now : Time) : Time := now.AddDate 0 0 (-(weekDayIndex now) + 1)

/-- Line 162. -/
def weekEnd (now : Time) : Time := now.AddDate 0 0 (5 - weekDayIndex now)

def getDateInfo (env : Env) (lastWeek : Bool) : Except Error DateInfo :=
  match env.loadLocation with
  | .error err => .error err
  | .ok _ =>
    let now := referenceInstant env lastWeek
    let weekNo := now.ISOWeek.2
    .ok { Week := sprintf02d weekNo
          WeekStart := (weekStart now).Format "2006/01/02"
          WeekEnd := (weekEnd now).Format "2006/01/02"
          Month := now.Format "2006-01" }

def fillTemplate (env : Env) (tpl : String) (lastWeek : Bool) : Except Error String :=
  match getDateInfo env lastWeek with
  | .error err => .error err
  | .ok dateInfo =>
    -- Replace the placeholders
    let tpl := ReplaceAll tpl "\x7b\x7b.Week\x7d\x7d" dateInfo.Week
    let tpl := ReplaceAll tpl "\x7b\x7b.WeekStart\x7d\x7d" dateInfo.WeekStart
    let tpl := ReplaceAll tpl "\x7b\x7b.WeekEnd\x7d\x7d" dateInfo.WeekEnd
    .ok tpl

/-- Line 215. -/
def monthDirOf (goWeekConfig : GoWeekConfig) (dateInfo : DateInfo) : Path :=
  filepathJoin goWeekConfig.DocsDir dateInfo.Month

/-- Line 224. -/
def reportFileOf (goWeekConfig : GoWeekConfig) (dateInfo : DateInfo) : Path :=
  filepathJoin (monthDirOf goWeekConfig dateInfo) ("weekly-report-" ++ dateInfo.Week ++ ".md")

/-- Lines 216-237 of `writeToFile`, after the configuration and the dates
have been obtained. The result is paired with the file system it leaves. -/
def writeReport (fs : Node) (monthDir file : Path) (content : String) :
    Except Error Path × Node :=
  let made : Except Error Node :=
    if osIsNotExist (osStat fs monthDir) then osMkdir fs monthDir else .ok fs
  match made with
  | .error err => (.error err, fs)
  | .ok fs =>
    if osIsNotExist (osStat fs file) then
      match osWriteFile fs file content with
      | .error err => (.error err, fs)
      | .ok fs1 => (.ok file, fs1)
    else
      (.ok file, fs)

def writeToFile (env : Env) (fs : Node) (content : String) (lastWeek : Bool) :
    Except Error Path × Node :=
  match readConfig env with
  | .error err => (.error err, fs)
  | .ok goWeekConfig =>
    match getDateInfo env lastWeek with
    | .error err => (.error err, fs)
    | .ok dateInfo =>
      writeReport fs (monthDirOf goWeekConfig dateInfo) (reportFileOf goWeekConfig dateInfo)
        content

def openFileWithTypora (env : Env) (file : Path) : Except Error Unit :=
  match readConfig env with
  | .error err => .error err
  | .ok config =>
    match env.startProcess config.TyporaPath ["--fullscreen", file.render] with
    | .error err => .error err
    | .ok _ => .ok ()

def mainAction (env : Env) (ctx : Flags) (fs : Node) : Except Error Unit × Node :=
  let commit := ctx.git
  let lastWeek := ctx.lastWeek
  if commit then
    match gitCommit env with
    | .error err => (.error err, fs)
    | .ok _ => (.ok (), fs)
  else
    match readTemplate env with
    | .error _ => (.ok (), fs)
    | .ok template =>
      match fillTemplate env template lastWeek with
      | .error err => (.error err, fs)
      | .ok content =>
        match writeToFile env fs content lastWeek with
        | (.error err, fs) => (.error err, fs)
        | (.ok file, fs) => (openFileWithTypora env file, fs)

/-! ## Definitions used in the statements -/

/-- One left-to-right pass that replaces, at each position outside a match,
the occurrence of a rule's pattern starting there (the first rule of the list
that matches) by the rule's value, and resumes behind the occurrence. -/
def substScan (rules : List (List Char × List Char)) : Nat → List Char → List Char
  | _, [] => []
  | skip + 1, _ :: s => substScan rules skip s
  | 0, c :: s =>
    match rules.find? (fun r => r.1.isPrefixOf (c :: s)) with
    | some r => r.2 ++ substScan rules (r.1.length - 1) s
    | none => c :: substScan rules 0 s

/-- Side conditions on substitution rules: patterns and values are not empty,
patterns are written in an alphabet that no value touches. -/
def RulesOK (isPat : Char → Prop) (rules : List (List Char × List Char)) : Prop :=
  ∀ r ∈ rules, r.1 ≠ [] ∧ r.2 ≠ [] ∧ (∀ c ∈ r.1, isPat c) ∧ (∀ c ∈ r.2, ¬ isPat c)

/-- No occurrence of `q` can begin inside an occurrence of `p`: no non-empty
suffix of `p` is a prefix of `q` or has `q` as a prefix. -/
def NoOverlap (p q : List Char) : Prop :=
  ∀ u ∈ p.tails, u ≠ [] → ¬ q <+: u ∧ ¬ u <+: q

instance (p q : List Char) : Decidable (NoOverlap p q) := by
  unfold NoOverlap
  infer_instance

/-- The characters of the three placeholders. -/
def isPlaceholderChar (c : Char) : Prop :=
  c ∈ ['\x7b', '\x7d', '.', 'W', 'e', 'k', 'S', 't', 'a', 'r', 'E', 'n', 'd']

instance : DecidablePred isPlaceholderChar := fun c => by
  unfold isPlaceholderChar
  infer_instance

/-- The characters of formatted numbers and dates. -/
def isValueChar (c : Char) : Prop :=
  c = '-' ∨ c = '/' ∨ ∃ k, k < 10 ∧ c = Char.ofNat (48 + k)

/-- The rule of a placeholder and its value. -/
def ruleOf (placeholder value : String) : List Char × List Char :=
  (placeholder.data, value.data)

/-- The three substitution rules of `fillTemplate`. -/
def rulesOf (dateInfo : DateInfo) : List (List Char × List Char) :=
  [ruleOf "\x7b\x7b.Week\x7d\x7d" dateInfo.Week,
   ruleOf "\x7b\x7b.WeekStart\x7d\x7d" dateInfo.WeekStart,
   ruleOf "\x7b\x7b.WeekEnd\x7d\x7d" dateInfo.WeekEnd]

/-- The filler as the specification words it: every occurrence of the three
placeholders is replaced by the corresponding value, in one pass from left to
right. -/
def substituteAll (dateInfo : DateInfo) (tpl : String) : String :=
  ⟨substScan (rulesOf dateInfo) 0 tpl.data⟩

/-- Values as `getDateInfo` produces them: not empty, made of digits, `/`
and `-`. -/
def ValuesOK (di : DateInfo) : Prop :=
  (di.Week.data ≠ [] ∧ ∀ c ∈ di.Week.data, isValueChar c) ∧
  (di.WeekStart.data ≠ [] ∧ ∀ c ∈ di.WeekStart.data, isValueChar c) ∧
  (di.WeekEnd.data ≠ [] ∧ ∀ c ∈ di.WeekEnd.data, isValueChar c)

/-- Value of a decimal digit character. -/
def digitVal (c : Char) : Nat := c.toNat - 48

/-- Number written by a list of decimal digits. -/
def decimalValue (l : List Char) : Nat := l.foldl (fun a c => 10 * a + digitVal c) 0

/-- Reading back a number written by `appendInt`. -/
def parseInt (l : List Char) : Int :=
  if l.head? = some '-' then -(decimalValue l.tail : Int) else (decimalValue l : Int)

/-- The decimal digits `0` to `9`. -/
def isDigitChar (c : Char) : Prop := ∃ k, k < 10 ∧ c = Char.ofNat (48 + k)

/-- A file system on which the writer has nothing left to do: `os.Mkdir` is
not called or fails, and `os.WriteFile` is not called or fails. -/
def Settled (fs : Node) (monthDir file : Path) : Prop :=
  (osIsNotExist (osStat fs monthDir) = true → ∀ fs2, osMkdir fs monthDir ≠ .ok fs2) ∧
  (osIsNotExist (osStat fs monthDir) = false → osIsNotExist (osStat fs file) = true →
    ∀ content fs3, osWriteFile fs file content ≠ .ok fs3)

/-! ## Sample inputs -/

/-- An environment for examples: Wednesday 15 May 2024, 10:30, a reports
root `docs` and a template with the three placeholders. -/
def sampleEnv : Env :=
  { loadLocation := .ok ()
    now := Date 2024 5 15 10 30 0
    template := .ok "Week \x7b\x7b.Week\x7d\x7d: \x7b\x7b.WeekStart\x7d\x7d - \x7b\x7b.WeekEnd\x7d\x7d"
    config := .ok { DocsDir := ["docs"], TyporaPath := "typora" }
    gitOutput := fun _ _ => .ok ""
    startProcess := fun _ _ => .ok () }

/-- A file system with a reports root `docs` that holds the report of week 20
of 2024. -/
def sampleFS : Node :=
  .dir true true [("docs", .dir true true
    [("2024-05", .dir true true [("weekly-report-20.md", .file "old")])])]

/-- A file system with an empty reports root `docs`. -/
def emptyDocsFS : Node := .dir true true [("docs", .dir true true [])]

/-- A file system in which the reports root `docs` is a regular file. -/
def docsIsFileFS : Node := .dir true true [("docs", .file "not a directory")]

/-- A file system in which the reports root `docs` may not be searched, with
the report of week 20 of 2024 inside. -/
def lockedDocsFS : Node :=
  .dir true true [("docs", .dir false true
    [("2024-05", .dir true true [("weekly-report-20.md", .file "old")])])]

/-- An environment in which the template file cannot be read. -/
def missingTemplateEnv : Env :=
  { sampleEnv with template := .error "open template.md: The system cannot find the file specified." }

/-- Monday 29 April 2024, 09:00. -/
def aprilEnv : Env := { sampleEnv with now := Date 2024 4 29 9 0 0 }

/-- Wednesday 1 May 2024, 09:00, in the same ISO week as `aprilEnv`. -/
def mayEnv : Env := { sampleEnv with now := Date 2024 5 1 9 0 0 }

/-- Monday 13 May 2024, 09:00. -/
def mondayEnv : Env := { sampleEnv with now := Date 2024 5 13 9 0 0 }

/-- Sunday 19 May 2024, 23:00, the last day of the ISO week of `mondayEnv`. -/
def sundayEnv : Env := { sampleEnv with now := Date 2024 5 19 23 0 0 }

/-- Tuesday 31 December 2024, 09:00: ISO week 1 of 2025, month label 2024-12. -/
def newYearEnv : Env := { sampleEnv with now := Date 2024 12 31 9 0 0 }

/-! ## Calendar arithmetic -/

theorem secondsPerDay_eq : secondsPerDay = 86400 := rfl

theorem secondsPerWeek_eq : secondsPerWeek = 604800 := rfl

/-- The weekday is the day count modulo 7, day 0 being a Monday. -/
theorem absWeekday_eq (a : Int) : absWeekday a = (a / 86400 + 1) % 7 := by
  show ((a + 1 * 86400) % 604800 / 86400 : Int) = (a / 86400 + 1) % 7
  omega

/-- Cycle decomposition of a day count, as `absYearDay` computes it. -/
theorem absYearDay_decomp (d : Int) :
    ∃ f a b c r : Int, 0 ≤ a ∧ a ≤ 3 ∧ 0 ≤ b ∧ b ≤ 24 ∧ 0 ≤ c ∧ c ≤ 3 ∧ 0 ≤ r ∧
      d = 146097 * f + 36524 * a + 1461 * b + 365 * c + r ∧
      absYearDay d = (400 * f + 100 * a + 4 * b + c + 1, r) ∧
      (r < 365 ∨ (r = 365 ∧ c = 3 ∧ (b < 24 ∨ a = 3))) := by
  simp only [absYearDay, daysPer400Years, daysPer100Years, daysPer4Years]
  norm_num only
  generalize hf : d / 146097 = f
  generalize hd1 : d - 146097 * f = d1
  have h1 : 0 ≤ d1 ∧ d1 < 146097 := by omega
  generalize hg : d1 / 36524 = g
  have h2 : 0 ≤ g ∧ g ≤ 4 := by omega
  generalize ha : g - g / 4 = a
  have h3 : 0 ≤ a ∧ a ≤ 3 := by omega
  generalize hd2 : d1 - 36524 * a = d2
  have h4 : 0 ≤ d2 ∧ d2 ≤ 36524 ∧ (d2 = 36524 → a = 3) := by omega
  generalize hb : d2 / 1461 = b
  have h5 : 0 ≤ b ∧ b ≤ 24 := by omega
  generalize hd3 : d2 - 1461 * b = d3
  have h6 : 0 ≤ d3 ∧ d3 < 1461 := by omega
  generalize hk : d3 / 365 = k
  have h7 : 0 ≤ k ∧ k ≤ 4 := by omega
  generalize hc : k - k / 4 = c
  have h8 : 0 ≤ c ∧ c ≤ 3 := by omega
  refine ⟨f, a, b, c, d3 - 365 * c, h3.1, h3.2, h5.1, h5.2, h8.1, h8.2, ?_, ?_, rfl, ?_⟩
  · omega
  · omega
  · omega

theorem daysSinceEpoch_decomp (f a b c : Int) (ha : 0 ≤ a ∧ a ≤ 3) (hb : 0 ≤ b ∧ b ≤ 24)
    (hc : 0 ≤ c ∧ c ≤ 3) :
    daysSinceEpoch (400 * f + 100 * a + 4 * b + c + 1)
      = 146097 * f + 36524 * a + 1461 * b + 365 * c := by
  simp only [daysSinceEpoch, daysPer400Years, daysPer100Years, daysPer4Years]
  norm_num only
  have e1 : (400 * f + 100 * a + 4 * b + c + 1 - 1) / 400 = f := by omega
  rw [e1]
  have e2 : (400 * f + 100 * a + 4 * b + c + 1 - 1 - 400 * f) / 100 = a := by omega
  rw [e2]
  have e3 : (400 * f + 100 * a + 4 * b + c + 1 - 1 - 400 * f - 100 * a) / 4 = b := by omega
  rw [e3]
  omega

theorem isLeap_decomp (f a b c : Int) (ha : 0 ≤ a ∧ a ≤ 3) (hb : 0 ≤ b ∧ b ≤ 24)
    (hc : 0 ≤ c ∧ c ≤ 3) :
    isLeap (400 * f + 100 * a + 4 * b + c + 1) = true ↔ (c = 3 ∧ (b < 24 ∨ a = 3)) := by
  simp only [isLeap, Bool.and_eq_true, Bool.or_eq_true, beq_iff_eq, bne_iff_ne, ne_eq]
  omega

/-- The year and day of the year of a day count locate the day: it is the
first day of the year plus the day of the year. -/
theorem absYearDay_sound (d : Int) :
    daysSinceEpoch (absYearDay d).1 + (absYearDay d).2 = d := by
  obtain ⟨f, a, b, c, r, ha0, ha, hb0, hb, hc0, hc, _, hd, he, _⟩ := absYearDay_decomp d
  rw [he]
  simp only
  rw [daysSinceEpoch_decomp f a b c ⟨ha0, ha⟩ ⟨hb0, hb⟩ ⟨hc0, hc⟩]
  omega

/-- The day of the year lies within the year. -/
theorem absYearDay_range (d : Int) :
    0 ≤ (absYearDay d).2 ∧
      (absYearDay d).2 < 365 + (if isLeap (absYearDay d).1 = true then 1 else 0) := by
  obtain ⟨f, a, b, c, r, ha0, ha, hb0, hb, hc0, hc, hr, hd, he, hl⟩ := absYearDay_decomp d
  rw [he]
  simp only
  refine ⟨hr, ?_⟩
  have := isLeap_decomp f a b c ⟨ha0, ha⟩ ⟨hb0, hb⟩ ⟨hc0, hc⟩
  split
  · omega
  · rename_i hn
    rw [this] at hn
    omega

theorem daysBeforeAt_vals :
    daysBeforeAt 0 = 0 ∧ daysBeforeAt 1 = 31 ∧ daysBeforeAt 2 = 59 ∧ daysBeforeAt 3 = 90 ∧
    daysBeforeAt 4 = 120 ∧ daysBeforeAt 5 = 151 ∧ daysBeforeAt 6 = 181 ∧
    daysBeforeAt 7 = 212 ∧ daysBeforeAt 8 = 243 ∧ daysBeforeAt 9 = 273 ∧
    daysBeforeAt 10 = 304 ∧ daysBeforeAt 11 = 334 ∧ daysBeforeAt 12 = 365 := by
  decide

/-- Month and day of the month, without the leap day. -/
theorem monthDay_common (day : Int) (h0 : 0 ≤ day) (h1 : day < 365) :
    ∃ m dd : Int, (if day ≥ daysBeforeAt (day / 31 + 1) then
        (day / 31 + 1 + 1, day - daysBeforeAt (day / 31 + 1) + 1)
      else (day / 31 + 1, day - daysBeforeAt (day / 31) + 1)) = (m, dd) ∧
      1 ≤ m ∧ m ≤ 12 ∧ 1 ≤ dd ∧ dd ≤ 31 ∧ daysBeforeAt (m - 1) + (dd - 1) = day ∧
      (day < 59 → m ≤ 2) ∧ (59 ≤ day → 3 ≤ m) := by
  obtain ⟨v0, v1, v2, v3, v4, v5, v6, v7, v8, v9, v10, v11, v12⟩ := daysBeforeAt_vals
  generalize hq : day / 31 = q
  have hq2 : 0 ≤ q ∧ q ≤ 11 := by omega
  obtain ⟨hq0, hq1⟩ := hq2
  interval_cases q <;> norm_num only [v0, v1, v2, v3, v4, v5, v6, v7, v8, v9, v10, v11, v12] <;>
    split <;> refine ⟨_, _, rfl, ?_⟩ <;>
    norm_num only [v0, v1, v2, v3, v4, v5, v6, v7, v8, v9, v10, v11, v12] <;>
    simp only [true_and, and_true, implies_true, imp_false, not_lt, not_le] <;> omega

/-- Month and day of the month locate the day within the year the way
`Date` adds them up. -/
theorem monthDay_spec (leap : Bool) (yd : Int) (h0 : 0 ≤ yd)
    (h1 : yd < 365 + (if leap = true then 1 else 0)) :
    ∃ m dd : Int, monthDay leap yd = (m, dd) ∧ 1 ≤ m ∧ m ≤ 12 ∧ 1 ≤ dd ∧ dd ≤ 31 ∧
      daysBeforeAt (m - 1) + (if (leap && decide (m ≥ March)) = true then 1 else 0) + (dd - 1)
        = yd := by
  cases leap with
  | false =>
    obtain ⟨m, dd, e, hm1, hm2, hd1, hd2, hs, _, _⟩ := monthDay_common yd h0 (by simpa using h1)
    refine ⟨m, dd, ?_, hm1, hm2, hd1, hd2, ?_⟩
    · simpa [monthDay] using e
    · simpa using hs
  | true =>
    by_cases h59 : yd = 59
    · subst h59
      refine ⟨2, 29, by decide, by decide, by decide, by decide, by decide, by decide⟩
    · by_cases hgt : yd > 59
      · obtain ⟨m, dd, e, hm1, hm2, hd1, hd2, hs, _, h3⟩ :=
          monthDay_common (yd - 1) (by omega) (by simp at h1; omega)
        refine ⟨m, dd, ?_, hm1, hm2, hd1, hd2, ?_⟩
        · simp only [monthDay, Bool.true_and, beq_iff_eq]
          norm_num only [h59, hgt, if_true, if_false, decide_True]
          simpa using e
        · have : m ≥ March := h3 (by omega)
          simp only [Bool.true_and, this, decide_True, if_true]
          omega
      · obtain ⟨m, dd, e, hm1, hm2, hd1, hd2, hs, h3, _⟩ :=
          monthDay_common yd h0 (by omega)
        refine ⟨m, dd, ?_, hm1, hm2, hd1, hd2, ?_⟩
        · simp only [monthDay, Bool.true_and, beq_iff_eq]
          norm_num only [h59, hgt, if_true, if_false, decide_False]
          simpa using e
        · have : ¬ m ≥ March := by
            have := h3 (by omega)
            simp only [March]
            omega
          simp only [Bool.true_and, this, decide_False, if_false]
          simp
          omega

theorem norm_id (hi lo base : Int) (h0 : 0 ≤ lo) (h1 : lo < base) :
    norm hi lo base = (hi, lo) := by
  have h2 : ¬ lo < 0 := by omega
  have h3 : ¬ lo ≥ base := by omega
  simp only [norm, h2, h3, if_false]

theorem absClock_spec (a : Int) :
    0 ≤ (absClock a).1 ∧ (absClock a).1 < 24 ∧ 0 ≤ (absClock a).2.1 ∧ (absClock a).2.1 < 60 ∧
      0 ≤ (absClock a).2.2 ∧ (absClock a).2.2 < 60 ∧
      (absClock a).1 * 3600 + (absClock a).2.1 * 60 + (absClock a).2.2 = a % 86400 := by
  simp only [absClock, secondsPerDay, secondsPerHour, secondsPerMinute]
  norm_num only
  omega

/-- Adding `n` calendar days moves the wall clock by `n` times 86400 seconds. -/
theorem AddDate_days_abs (t : Time) (n : Int) :
    (t.AddDate 0 0 n).abs = t.abs + n * 86400 := by
  obtain ⟨hh0, hh1, hm0, hm1, hs0, hs1, hsum⟩ := absClock_spec t.abs
  obtain ⟨hy0, hy1⟩ := absYearDay_range (t.abs / secondsPerDay)
  obtain ⟨m, dd, e, hm1', hm2', _, _, hs⟩ :=
    monthDay_spec (isLeap (absYearDay (t.abs / secondsPerDay)).1)
      (absYearDay (t.abs / secondsPerDay)).2 hy0 hy1
  have hsound := absYearDay_sound (t.abs / secondsPerDay)
  simp only [Time.AddDate, Date, absDate, e, add_zero]
  rw [norm_id _ (m - 1) 12 (by omega) (by omega)]
  rw [norm_id _ _ 60 hs0 hs1]
  simp only
  rw [norm_id _ _ 60 hm0 hm1]
  simp only
  rw [norm_id _ _ 24 hh0 hh1]
  simp only [secondsPerDay, secondsPerHour, secondsPerMinute] at *
  norm_num only at *
  have em : m - 1 + 1 = m := by omega
  rw [em]
  split at hs <;> rename_i hl
  · rw [if_pos hl]
    omega
  · rw [if_neg hl]
    omega

/-- The ISO week of an instant is read off the Thursday of its Monday-based
week; weeks are counted from day 0, a Monday. -/
theorem ISOWeek_eq (t : Time) :
    t.ISOWeek = ((absYearDay (7 * (t.abs / 86400 / 7) + 3)).1,
      (absYearDay (7 * (t.abs / 86400 / 7) + 3)).2 / 7 + 1) := by
  have key : (t.abs + (if Thursday - absWeekday t.abs = 4 then -3
      else Thursday - absWeekday t.abs) * secondsPerDay) / secondsPerDay
      = 7 * (t.abs / 86400 / 7) + 3 := by
    rw [absWeekday_eq]
    simp only [Thursday, secondsPerDay_eq]
    generalize hk : (if 4 - (t.abs / 86400 + 1) % 7 = 4 then -3
      else 4 - (t.abs / 86400 + 1) % 7) = k
    have hk2 : k = 3 - t.abs / 86400 % 7 := by
      rw [← hk]
      split <;> omega
    have hd : (t.abs + k * 86400) / 86400 = t.abs / 86400 + k := by omega
    rw [hd, hk2]
    omega
  simp only [Time.ISOWeek, key]

/-- Instants of the same Monday-based week have the same ISO week. -/
theorem ISOWeek_congr (s t : Time) (h : s.abs / 86400 / 7 = t.abs / 86400 / 7) :
    s.ISOWeek = t.ISOWeek := by
  rw [ISOWeek_eq, ISOWeek_eq, h]

theorem weekDayIndex_eq (now : Time) : weekDayIndex now = now.abs / 86400 % 7 + 1 := by
  simp only [weekDayIndex, Time.Weekday, absWeekday_eq, Sunday]
  split <;> omega

theorem weekStart_abs (now : Time) :
    (weekStart now).abs = now.abs - (now.abs / 86400 % 7) * 86400 := by
  simp only [weekStart, AddDate_days_abs, weekDayIndex_eq]
  omega

theorem weekEnd_abs (now : Time) :
    (weekEnd now).abs = now.abs - (now.abs / 86400 % 7) * 86400 + 4 * 86400 := by
  simp only [weekEnd, AddDate_days_abs, weekDayIndex_eq]
  omega

theorem weekStart_day (now : Time) :
    (weekStart now).abs / 86400 = 7 * (now.abs / 86400 / 7) := by
  rw [weekStart_abs]
  have : (now.abs - now.abs / 86400 % 7 * 86400) / 86400
      = now.abs / 86400 - now.abs / 86400 % 7 := by
    generalize now.abs / 86400 % 7 = i
    omega
  omega

theorem weekEnd_day (now : Time) :
    (weekEnd now).abs / 86400 = 7 * (now.abs / 86400 / 7) + 4 := by
  rw [weekEnd_abs]
  have : (now.abs - now.abs / 86400 % 7 * 86400 + 4 * 86400) / 86400
      = now.abs / 86400 - now.abs / 86400 % 7 + 4 := by
    generalize now.abs / 86400 % 7 = i
    omega
  omega

/-! ## Date resolution -/

/-- The value of `getDateInfo` when the time zone loads, in terms of the
reference instant. -/
theorem getDateInfo_ok (env : Env) (lastWeek : Bool) (h : env.loadLocation = .ok ()) :
    getDateInfo env lastWeek = .ok
      { Week := sprintf02d (referenceInstant env lastWeek).ISOWeek.2
        WeekStart := (weekStart (referenceInstant env lastWeek)).Format "2006/01/02"
        WeekEnd := (weekEnd (referenceInstant env lastWeek)).Format "2006/01/02"
        Month := (referenceInstant env lastWeek).Format "2006-01" } := by
  simp only [getDateInfo, h]

/-- C1: for every reference instant (after the optional shift by seven days)
the week start computed by `getDateInfo` is a Monday, the week end is a Friday,
both lie in the ISO week (ISO year and week number) of the reference instant,
the week end is exactly four days after the week start (so start ≤ end), a
Sunday is given the weekday index 7 (its week start is six days earlier), and
the strings returned are the formats of these two instants. -/
theorem C1_week_bounds (env : Env) (lastWeek : Bool) (h : env.loadLocation = .ok ()) :
    (weekStart (referenceInstant env lastWeek)).Weekday = Monday ∧
    (weekEnd (referenceInstant env lastWeek)).Weekday = Friday ∧
    (weekStart (referenceInstant env lastWeek)).ISOWeek
      = (referenceInstant env lastWeek).ISOWeek ∧
    (weekEnd (referenceInstant env lastWeek)).ISOWeek
      = (referenceInstant env lastWeek).ISOWeek ∧
    (weekEnd (referenceInstant env lastWeek)).abs
      = (weekStart (referenceInstant env lastWeek)).abs + 4 * secondsPerDay ∧
    (weekStart (referenceInstant env lastWeek)).abs
      ≤ (weekEnd (referenceInstant env lastWeek)).abs ∧
    ((referenceInstant env lastWeek).Weekday = Sunday →
      weekDayIndex (referenceInstant env lastWeek) = 7 ∧
      (weekStart (referenceInstant env lastWeek)).abs
        = (referenceInstant env lastWeek).abs - 6 * secondsPerDay) ∧
    ∃ di, getDateInfo env lastWeek = .ok di ∧
      di.WeekStart = (weekStart (referenceInstant env lastWeek)).Format "2006/01/02" ∧
      di.WeekEnd = (weekEnd (referenceInstant env lastWeek)).Format "2006/01/02" := by
  refine ⟨?_, ?_, ?_, ?_, ?_, ?_, ?_, ⟨_, getDateInfo_ok env lastWeek h, rfl, rfl⟩⟩ <;>
    generalize referenceInstant env lastWeek = now
  · simp only [Time.Weekday, absWeekday_eq, weekStart_day, Monday]
    omega
  · simp only [Time.Weekday, absWeekday_eq, weekEnd_day, Friday]
    omega
  · apply ISOWeek_congr
    rw [weekStart_day]
    omega
  · apply ISOWeek_congr
    rw [weekEnd_day]
    omega
  · rw [weekStart_abs, weekEnd_abs, secondsPerDay_eq]
  · rw [weekStart_abs, weekEnd_abs]
    omega
  · intro hs
    simp only [Time.Weekday, absWeekday_eq, Sunday] at hs
    rw [weekStart_abs, weekDayIndex_eq, secondsPerDay_eq]
    have : now.abs / 86400 % 7 = 6 := by omega
    rw [this]
    exact ⟨rfl, rfl⟩

theorem C1_week_bounds_witness :
    sampleEnv.loadLocation = .ok () ∧
    (weekStart (referenceInstant sampleEnv false)).Weekday = Monday ∧
    (weekEnd (referenceInstant sampleEnv false)).Weekday = Friday ∧
    (weekStart (referenceInstant sampleEnv false)).ISOWeek
      = (referenceInstant sampleEnv false).ISOWeek :=
  ⟨rfl, (C1_week_bounds sampleEnv false rfl).1, (C1_week_bounds sampleEnv false rfl).2.1,
    (C1_week_bounds sampleEnv false rfl).2.2.1⟩

theorem ISOWeek_range (t : Time) : 1 ≤ t.ISOWeek.2 ∧ t.ISOWeek.2 ≤ 53 := by
  rw [ISOWeek_eq]
  obtain ⟨h0, h1⟩ := absYearDay_range (7 * (t.abs / 86400 / 7) + 3)
  simp only
  split at h1 <;> omega

theorem sprintf02d_week (w : Nat) (h1 : 1 ≤ w) (h2 : w ≤ 53) :
    sprintf02d (w : Int) = ⟨[Char.ofNat (48 + w / 10), Char.ofNat (48 + w % 10)]⟩ := by
  interval_cases w <;> rfl

/-- C7: the `Week` field is the ISO week number `w` of the reference instant,
which lies in 1..53, written with exactly two decimal digits: the tens digit
and the units digit, the tens digit being `0` for weeks 1 to 9. -/
theorem C7_week_two_digits (env : Env) (lastWeek : Bool) (h : env.loadLocation = .ok ()) :
    ∃ (di : DateInfo) (w : Nat), getDateInfo env lastWeek = .ok di ∧
      (referenceInstant env lastWeek).ISOWeek.2 = (w : Int) ∧ 1 ≤ w ∧ w ≤ 53 ∧
      di.Week = ⟨[Char.ofNat (48 + w / 10), Char.ofNat (48 + w % 10)]⟩ ∧
      di.Week.length = 2 ∧
      (w ≤ 9 → di.Week = ⟨['0', Char.ofNat (48 + w)]⟩) := by
  obtain ⟨h1, h2⟩ := ISOWeek_range (referenceInstant env lastWeek)
  obtain ⟨w, hw⟩ : ∃ w : Nat, (referenceInstant env lastWeek).ISOWeek.2 = (w : Int) :=
    ⟨_, (Int.toNat_of_nonneg (by omega)).symm⟩
  have hs := sprintf02d_week w (by omega) (by omega)
  refine ⟨_, w, getDateInfo_ok env lastWeek h, hw, by omega, by omega, ?_, ?_, ?_⟩
  · simp only [hw, hs]
  · simp only [hw, hs]
    rfl
  · intro h9
    simp only [hw, hs]
    have h0 : 1 ≤ w := by omega
    clear hs hw h1 h2
    interval_cases w <;> rfl

theorem C7_week_two_digits_witness :
    sampleEnv.loadLocation = .ok () ∧
    ∃ (di : DateInfo) (w : Nat), getDateInfo sampleEnv false = .ok di ∧
      (referenceInstant sampleEnv false).ISOWeek.2 = (w : Int) ∧ 1 ≤ w ∧ w ≤ 53 ∧
      di.Week = ⟨[Char.ofNat (48 + w / 10), Char.ofNat (48 + w % 10)]⟩ ∧
      di.Week.length = 2 ∧
      (w ≤ 9 → di.Week = ⟨['0', Char.ofNat (48 + w)]⟩) :=
  ⟨rfl, C7_week_two_digits sampleEnv false rfl⟩

/-- C8: resolving the dates for last week at the instant `T` gives the same
result as resolving them for this week at `T` minus seven calendar days, that
is at the wall clock 7 times 86400 seconds earlier. -/
theorem C8_last_week_shift (env : Env) :
    getDateInfo env true
      = getDateInfo { env with now := env.now.AddDate 0 0 (-7) } false ∧
    getDateInfo env true
      = getDateInfo { env with now := ⟨env.now.abs - 7 * secondsPerDay⟩ } false := by
  have e : env.now.AddDate 0 0 (-7) = ⟨env.now.abs - 7 * secondsPerDay⟩ := by
    have := AddDate_days_abs env.now (-7)
    cases hh : env.now.AddDate 0 0 (-7)
    rw [hh] at this
    simp only at this
    rw [secondsPerDay_eq]
    exact congrArg Time.mk (by omega)
  have e2 : getDateInfo env true
      = getDateInfo { env with now := env.now.AddDate 0 0 (-7) } false := by
    simp [getDateInfo, referenceInstant]
  constructor
  · exact e2
  · rw [← e]
    exact e2

/-- The civil date of an instant determines its day count. -/
theorem absDate_day (a : Int) :
    a / 86400 = daysSinceEpoch (absDate a).year + daysBeforeAt ((absDate a).month - 1)
      + (if (isLeap (absDate a).year && decide ((absDate a).month ≥ March)) = true then 1 else 0)
      + ((absDate a).day - 1) := by
  obtain ⟨hy0, hy1⟩ := absYearDay_range (a / secondsPerDay)
  obtain ⟨m, dd, e, _, _, _, _, hs⟩ :=
    monthDay_spec (isLeap (absYearDay (a / secondsPerDay)).1)
      (absYearDay (a / secondsPerDay)).2 hy0 hy1
  have hsound := absYearDay_sound (a / secondsPerDay)
  simp only [absDate, e]
  rw [secondsPerDay_eq] at *
  omega

/-- C9: when the reference day is 15 May 2024, a Wednesday, and the last-week
flag is unset, `getDateInfo` returns week `20`, week start `2024/05/13`, week
end `2024/05/17` and the month `2024-05` of the reference day itself. -/
theorem C9_example_2024_05_15 (env : Env) (h : env.loadLocation = .ok ())
    (hy : (absDate env.now.abs).year = 2024) (hm : (absDate env.now.abs).month = 5)
    (hd : (absDate env.now.abs).day = 15) :
    env.now.Weekday = Wednesday ∧
    getDateInfo env false = .ok
      { Week := "20", WeekStart := "2024/05/13", WeekEnd := "2024/05/17", Month := "2024-05" } := by
  have hD : env.now.abs / 86400 = 739020 := by
    rw [absDate_day, hy, hm, hd]
    decide
  constructor
  · simp only [Time.Weekday, absWeekday_eq, hD]
    decide
  · rw [getDateInfo_ok env false h]
    have hr : referenceInstant env false = env.now := rfl
    rw [hr]
    have e1 : sprintf02d env.now.ISOWeek.2 = "20" := by
      rw [ISOWeek_eq, hD]
      decide
    have e2 : (weekStart env.now).Format "2006/01/02" = "2024/05/13" := by
      simp only [Time.Format, absDate, secondsPerDay_eq, weekStart_day, hD]
      decide
    have e3 : (weekEnd env.now).Format "2006/01/02" = "2024/05/17" := by
      simp only [Time.Format, absDate, secondsPerDay_eq, weekEnd_day, hD]
      decide
    have e4 : env.now.Format "2006-01" = "2024-05" := by
      simp only [Time.Format, absDate, secondsPerDay_eq, hD]
      decide
    rw [e1, e2, e3, e4]

theorem C9_example_2024_05_15_witness :
    sampleEnv.loadLocation = .ok () ∧ (absDate sampleEnv.now.abs).year = 2024 ∧
    (absDate sampleEnv.now.abs).month = 5 ∧ (absDate sampleEnv.now.abs).day = 15 ∧
    sampleEnv.now.Weekday = Wednesday ∧
    getDateInfo sampleEnv false = .ok
      { Week := "20", WeekStart := "2024/05/13", WeekEnd := "2024/05/17", Month := "2024-05" } :=
  ⟨rfl, by decide, by decide, by decide,
    C9_example_2024_05_15 sampleEnv rfl (by decide) (by decide) (by decide)⟩

/-! ## File system -/

theorem lookup_setEntry_self (c : String) (n : Node) (es : List (String × Node)) :
    (setEntry c n es).lookup c = some n := by
  induction es with
  | nil => simp [setEntry, List.lookup]
  | cons e rest ih =>
    obtain ⟨k, v⟩ := e
    by_cases hk : k = c
    · simp [setEntry, hk, List.lookup]
    · have hne : (c == k) = false := by
        simp only [beq_eq_false_iff_ne, ne_eq]
        exact fun h => hk h.symm
      simp [setEntry, hk, List.lookup, hne, ih]

theorem lookup_setEntry_other (c c2 : String) (n : Node) (es : List (String × Node))
    (h : c2 ≠ c) : (setEntry c n es).lookup c2 = es.lookup c2 := by
  induction es with
  | nil =>
    have hne : (c2 == c) = false := by simpa using h
    simp [setEntry, List.lookup, hne]
  | cons e rest ih =>
    obtain ⟨k, v⟩ := e
    by_cases hk : k = c
    · subst hk
      have hne : (c2 == k) = false := by simpa using h
      simp [setEntry, List.lookup, hne]
    · by_cases h2 : c2 = k
      · subst h2
        simp [setEntry, hk, List.lookup]
      · have hne : (c2 == k) = false := by simpa using h2
        simp [setEntry, hk, List.lookup, hne, ih]

/-- A path that `os.Stat` reports as missing holds no object. -/
theorem lookup_of_stat_notExist (fs : Node) (p : Path)
    (h : osIsNotExist (osStat fs p) = true) : fs.lookup p = none := by
  induction p generalizing fs with
  | nil => simp [osStat, osIsNotExist] at h
  | cons c p ih =>
    cases fs with
    | file content => rfl
    | dir s w es =>
      simp only [osStat] at h
      simp only [Node.lookup]
      cases hl : es.lookup c with
      | none => rfl
      | some child =>
        cases s with
        | false => simp [osIsNotExist] at h
        | true =>
          simp only [hl, if_true] at h
          exact ih child h

/-- Below a path that `os.Stat` reports as missing, everything is reported
as missing. -/
theorem stat_notExist_child (fs : Node) (p : Path) (c : String)
    (h : osIsNotExist (osStat fs p) = true) : osIsNotExist (osStat fs (p ++ [c])) = true := by
  induction p generalizing fs with
  | nil => simp [osStat, osIsNotExist] at h
  | cons d p ih =>
    cases fs with
    | file content => simp [osStat, osIsNotExist] at h
    | dir s w es =>
      cases s with
      | false => simp [osStat, osIsNotExist] at h
      | true =>
        simp only [osStat, if_true, List.cons_append] at h ⊢
        cases hl : es.lookup d with
        | none => rfl
        | some child =>
          simp only [hl] at h ⊢
          exact ih child h

/-- After a successful `put`, `os.Stat` finds what was put. -/
theorem stat_put_self (cr : Bool) (n fs fs1 : Node) (p : Path)
    (h : Node.put cr n fs p = some fs1) : osStat fs1 p = .ok n := by
  induction p generalizing fs fs1 with
  | nil => simp [Node.put] at h
  | cons c p ih =>
    cases fs with
    | file content => simp [Node.put] at h
    | dir s w es =>
      cases p with
      | nil =>
        simp only [Node.put] at h
        split at h
        · rename_i hs
          simp only [Option.some.injEq] at h
          subst h
          have hs1 : s = true := by
            simp only [Bool.and_eq_true] at hs
            exact hs.1
          subst hs1
          simp [osStat, lookup_setEntry_self]
        · simp at h
      | cons d q =>
        simp only [Node.put] at h
        cases s with
        | false => simp at h
        | true =>
          simp only [if_true] at h
          cases hl : es.lookup c with
          | none => simp [hl] at h
          | some child =>
            simp only [hl] at h
            cases hp : Node.put cr n child (d :: q) with
            | none => simp [hp] at h
            | some child1 =>
              simp only [hp, Option.some.injEq] at h
              subst h
              simp only [osStat, if_true, lookup_setEntry_self]
              exact ih child child1 hp

/-- Shape of a successful `put`: the root is a searchable directory that
keeps its permissions, and only the entry of the first component changes. -/
theorem put_shape (cr : Bool) (n fs fs1 : Node) (c : String) (p : Path)
    (h : Node.put cr n fs (c :: p) = some fs1) :
    ∃ w es x, fs = .dir true w es ∧ fs1 = .dir true w (setEntry c x es) ∧
      ((p = [] ∧ x = n) ∨
        (∃ child, p ≠ [] ∧ es.lookup c = some child ∧ Node.put cr n child p = some x)) := by
  cases fs with
  | file content => simp [Node.put] at h
  | dir s w es =>
    cases p with
    | nil =>
      simp only [Node.put] at h
      split at h
      · rename_i hs
        simp only [Option.some.injEq] at h
        have hs1 : s = true := by
          simp only [Bool.and_eq_true] at hs
          exact hs.1
        subst hs1
        exact ⟨w, es, n, rfl, h.symm, Or.inl ⟨rfl, rfl⟩⟩
      · simp at h
    | cons d q =>
      simp only [Node.put] at h
      cases s with
      | false => simp at h
      | true =>
        simp only [if_true] at h
        cases hl : es.lookup c with
        | none => simp [hl] at h
        | some child =>
          simp only [hl] at h
          cases hp : Node.put cr n child (d :: q) with
          | none => simp [hp] at h
          | some child1 =>
            simp only [hp, Option.some.injEq] at h
            exact ⟨w, es, child1, rfl, h.symm, Or.inr ⟨child, by simp, hl, hp⟩⟩

/-- Putting an object without entries at a path that held nothing changes no
lookup, except at that path and at its ancestors. -/
theorem lookup_put_frame (cr : Bool) (n fs fs1 : Node) (p : Path)
    (h : Node.put cr n fs p = some fs1)
    (hnew : fs.lookup p = none) (hleaf : ∀ c r, n.lookup (c :: r) = none)
    (q : Path) (hq : ¬ q <+: p) : fs1.lookup q = fs.lookup q := by
  induction p generalizing fs fs1 q with
  | nil => simp [Node.put] at h
  | cons c p ih =>
    obtain ⟨w, es, x, e, e1, hx⟩ := put_shape cr n fs fs1 c p h
    subst e e1
    cases q with
    | nil => exact absurd List.nil_prefix hq
    | cons c2 q2 =>
      by_cases hc : c2 = c
      · subst hc
        simp only [Node.lookup, lookup_setEntry_self]
        rcases hx with ⟨hp, hxn⟩ | ⟨child, hp, hl, hput⟩
        · subst hp hxn
          simp only [Node.lookup] at hnew
          cases hl : es.lookup c2 with
          | some child => simp [hl] at hnew
          | none =>
            cases q2 with
            | nil => exact absurd (List.prefix_refl _) hq
            | cons a r => exact hleaf a r
        · simp only [Node.lookup, hl] at hnew
          simp only [hl]
          apply ih child x hput hnew
          intro hpre
          exact hq ((List.prefix_cons_inj c2).mpr hpre)
      · simp only [Node.lookup, lookup_setEntry_other c c2 x es hc]

/-- Putting an object at a path that held nothing changes no outcome of
`os.Stat`, except at that path and at its ancestors, and below that path
unless the object is a directory without entries. -/
theorem stat_put_frame (cr : Bool) (n fs fs1 : Node) (p : Path)
    (h : Node.put cr n fs p = some fs1) (hnew : fs.lookup p = none)
    (q : Path) (hq : ¬ q <+: p)
    (hn : ¬ p <+: q ∨ ∀ c r, osStat n (c :: r) = .error .notExist) :
    osStat fs1 q = osStat fs q := by
  induction p generalizing fs fs1 q with
  | nil => simp [Node.put] at h
  | cons c p ih =>
    obtain ⟨w, es, x, e, e1, hx⟩ := put_shape cr n fs fs1 c p h
    subst e e1
    cases q with
    | nil => exact absurd List.nil_prefix hq
    | cons c2 q2 =>
      by_cases hc : c2 = c
      · subst hc
        simp only [osStat, if_true, lookup_setEntry_self]
        rcases hx with ⟨hp, hxn⟩ | ⟨child, hp, hl, hput⟩
        · subst hp hxn
          simp only [Node.lookup] at hnew
          cases hl : es.lookup c2 with
          | some child => simp [hl] at hnew
          | none =>
            cases q2 with
            | nil => exact absurd (List.prefix_refl _) hq
            | cons a r =>
              rcases hn with hn | hn
              · exact absurd ((List.prefix_cons_inj c2).mpr List.nil_prefix) hn
              · exact hn a r
        · simp only [Node.lookup, hl] at hnew
          simp only [hl]
          apply ih child x hput hnew
          · intro hpre
            exact hq ((List.prefix_cons_inj c2).mpr hpre)
          · rcases hn with hn | hn
            · exact Or.inl (fun hpre => hn ((List.prefix_cons_inj c2).mpr hpre))
            · exact Or.inr hn
      · simp only [osStat, if_true, lookup_setEntry_other c c2 x es hc]

/-! ## Report writer -/

/-- When `os.Stat` of the report path does not fail with a not-exist error
(the file is there, or the path cannot be walked), nothing is created or
written and the path is returned with a nil error. -/
theorem writeReport_existing (fs : Node) (monthDir : Path) (name content : String)
    (h : osIsNotExist (osStat fs (filepathJoin monthDir name)) = false) :
    writeReport fs monthDir (filepathJoin monthDir name) content
      = (.ok (filepathJoin monthDir name), fs) := by
  have hp : osIsNotExist (osStat fs monthDir) = false := by
    cases hm : osIsNotExist (osStat fs monthDir) with
    | false => rfl
    | true =>
      have := stat_notExist_child fs monthDir name hm
      simp only [filepathJoin] at h
      rw [h] at this
      exact absurd this (by decide)
  simp [writeReport, h, hp]

/-- A successful call returns the report path, and afterwards `os.Stat` of
that path does not fail with a not-exist error. -/
theorem writeReport_ok (fs fs1 : Node) (monthDir file p : Path) (content : String)
    (h : writeReport fs monthDir file content = (.ok p, fs1)) :
    p = file ∧ osIsNotExist (osStat fs1 file) = false := by
  simp only [writeReport] at h
  split at h
  · simp at h
  · rename_i fs2 _
    split at h
    · rename_i hst
      split at h
      · simp at h
      · rename_i fs3 hw
        simp only [Prod.mk.injEq, Except.ok.injEq] at h
        obtain ⟨e1, e2⟩ := h
        subst e1 e2
        refine ⟨rfl, ?_⟩
        have hput : ∃ cr n, Node.put cr n fs2 file = some fs3 := by
          simp only [osWriteFile] at hw
          split at hw
          · simp at hw
          · split at hw
            · rename_i hput
              simp only [Except.ok.injEq] at hw
              subst hw
              exact ⟨_, _, hput⟩
            · simp at hw
          · simp at hw
          · simp at hw
          · split at hw
            · rename_i hput
              simp only [Except.ok.injEq] at hw
              subst hw
              exact ⟨_, _, hput⟩
            · simp at hw
        obtain ⟨cr, n, hput⟩ := hput
        rw [stat_put_self cr n fs2 fs3 _ hput]
        rfl
    · rename_i hst
      simp only [Prod.mk.injEq, Except.ok.injEq] at h
      obtain ⟨e1, e2⟩ := h
      subst e1 e2
      refine ⟨rfl, ?_⟩
      simpa using hst

/-- What `os.Mkdir` and `os.WriteFile` do when the writer calls them: they
put a directory without entries, or a file, at a path that held nothing. -/
theorem osMkdir_ok (fs fs1 : Node) (p : Path) (h : osMkdir fs p = .ok fs1) :
    fs.lookup p = none ∧ Node.put true (.dir true true []) fs p = some fs1 := by
  simp only [osMkdir] at h
  split at h
  · simp at h
  · simp at h
  · simp at h
  · rename_i hst
    split at h
    · rename_i hput
      simp only [Except.ok.injEq] at h
      subst h
      exact ⟨lookup_of_stat_notExist fs p (by rw [hst]; rfl), hput⟩
    · simp at h

theorem osWriteFile_new (fs fs1 : Node) (p : Path) (content : String)
    (hst : osIsNotExist (osStat fs p) = true) (h : osWriteFile fs p content = .ok fs1) :
    fs.lookup p = none ∧ Node.put true (.file content) fs p = some fs1 := by
  have hl := lookup_of_stat_notExist fs p hst
  have he : osStat fs p = .error .notExist := by
    cases hs : osStat fs p with
    | ok n => simp [hs, osIsNotExist] at hst
    | error e =>
      cases e with
      | notExist => rfl
      | notDir => simp [hs, osIsNotExist] at hst
      | permission => simp [hs, osIsNotExist] at hst
  simp only [osWriteFile, he] at h
  split at h
  · rename_i hput
    simp only [Except.ok.injEq] at h
    subst h
    exact ⟨hl, hput⟩
  · simp at h

/-- The file system that the writer leaves is the one it found, the one
after `os.Mkdir`, or that one after `os.WriteFile` of a new file. -/
theorem writeReport_steps (fs : Node) (monthDir file : Path) (content : String) :
    ∃ fs2, (fs2 = fs ∨ (fs.lookup monthDir = none ∧
        Node.put true (.dir true true []) fs monthDir = some fs2)) ∧
      ((writeReport fs monthDir file content).2 = fs ∨
        (writeReport fs monthDir file content).2 = fs2 ∨
        (fs2.lookup file = none ∧
          Node.put true (.file content) fs2 file
            = some (writeReport fs monthDir file content).2)) := by
  simp only [writeReport]
  split
  · exact ⟨fs, Or.inl rfl, Or.inl rfl⟩
  · rename_i fs2 hm
    have h2 : fs2 = fs ∨ (fs.lookup monthDir = none ∧
        Node.put true (.dir true true []) fs monthDir = some fs2) := by
      split at hm
      · exact Or.inr (osMkdir_ok fs fs2 monthDir hm)
      · simp only [Except.ok.injEq] at hm
        exact Or.inl hm.symm
    refine ⟨fs2, h2, ?_⟩
    split
    · rename_i hst
      split
      · exact Or.inr (Or.inl rfl)
      · rename_i fs3 hw
        exact Or.inr (Or.inr (osWriteFile_new fs2 fs3 file content hst hw))
    · exact Or.inr (Or.inl rfl)

/-- The writer changes no lookup except at the month directory, the report
file and their ancestors. -/
theorem writeReport_frame (fs : Node) (monthDir file : Path) (content : String) (q : Path)
    (h1 : ¬ q <+: monthDir) (h2 : ¬ q <+: file) :
    (writeReport fs monthDir file content).2.lookup q = fs.lookup q := by
  obtain ⟨fs2, hm, hw⟩ := writeReport_steps fs monthDir file content
  have e2 : fs2.lookup q = fs.lookup q := by
    rcases hm with hm | ⟨hnone, hput⟩
    · rw [hm]
    · exact lookup_put_frame _ _ _ _ _ hput hnone (by intro c r; simp [Node.lookup]) q h1
  rcases hw with hw | hw | ⟨hnone, hput⟩
  · rw [hw]
  · rw [hw, e2]
  · rw [← e2]
    exact lookup_put_frame _ _ _ _ _ hput hnone (by intro c r; simp [Node.lookup]) q h2

/-- The writer changes no outcome of `os.Stat` except at the month directory,
the report file, their ancestors and below the report file. -/
theorem writeReport_frame_stat (fs : Node) (monthDir file : Path) (content : String)
    (q : Path) (h1 : ¬ q <+: monthDir) (h2 : ¬ q <+: file) (h3 : ¬ file <+: q) :
    osStat (writeReport fs monthDir file content).2 q = osStat fs q := by
  obtain ⟨fs2, hm, hw⟩ := writeReport_steps fs monthDir file content
  have e2 : osStat fs2 q = osStat fs q := by
    rcases hm with hm | ⟨hnone, hput⟩
    · rw [hm]
    · exact stat_put_frame _ _ _ _ _ hput hnone q h1 (Or.inr (by intro c r; simp [osStat]))
  rcases hw with hw | hw | ⟨hnone, hput⟩
  · rw [hw]
  · rw [hw, e2]
  · rw [← e2]
    exact stat_put_frame _ _ _ _ _ hput hnone q h2 (Or.inl h3)

/-- Whether a `put` succeeds does not depend on the object that is put. -/
theorem put_none_indep (cr : Bool) (n n2 fs : Node) (p : Path)
    (h : Node.put cr n fs p = none) : Node.put cr n2 fs p = none := by
  induction p generalizing fs with
  | nil => simp [Node.put]
  | cons c p ih =>
    cases fs with
    | file content => rfl
    | dir s w es =>
      cases p with
      | nil =>
        simp only [Node.put] at h ⊢
        split at h
        · simp at h
        · rename_i hs
          simp only [hs]
          rfl
      | cons d q =>
        simp only [Node.put] at h ⊢
        cases s with
        | false => rfl
        | true =>
          simp only [if_true] at h ⊢
          cases hl : es.lookup c with
          | none => rfl
          | some child =>
            simp only [hl] at h ⊢
            cases hp : Node.put cr n child (d :: q) with
            | some child1 => simp [hp] at h
            | none => simp only [ih child hp]

theorem writeReport_of_settled (fs : Node) (monthDir file : Path) (content : String)
    (h : Settled fs monthDir file) : (writeReport fs monthDir file content).2 = fs := by
  obtain ⟨hm, hw⟩ := h
  simp only [writeReport]
  cases hsm : osIsNotExist (osStat fs monthDir) with
  | true =>
    simp only [if_true]
    cases hmk : osMkdir fs monthDir with
    | error e => rfl
    | ok fs2 => exact absurd hmk (hm hsm fs2)
  | false =>
    simp only [Bool.false_eq_true, if_false]
    cases hsf : osIsNotExist (osStat fs file) with
    | false => rfl
    | true =>
      simp only [if_true]
      cases hwf : osWriteFile fs file content with
      | error e => rfl
      | ok fs3 => exact absurd hwf (hw hsm hsf content fs3)

theorem osWriteFile_error_indep (fs : Node) (p : Path) (content content2 : String) (e : Error)
    (hst : osIsNotExist (osStat fs p) = true) (h : osWriteFile fs p content = .error e) :
    ∀ fs3, osWriteFile fs p content2 ≠ .ok fs3 := by
  have he : osStat fs p = .error .notExist := by
    cases hs : osStat fs p with
    | ok n => simp [hs, osIsNotExist] at hst
    | error e =>
      cases e with
      | notExist => rfl
      | notDir => simp [hs, osIsNotExist] at hst
      | permission => simp [hs, osIsNotExist] at hst
  simp only [osWriteFile, he] at h ⊢
  cases hp : Node.put true (.file content) fs p with
  | some fs1 => simp [hp] at h
  | none =>
    rw [put_none_indep true _ (.file content2) fs p hp]
    intro fs3 h3
    simp at h3

/-- Whatever a call of the writer returns, it leaves a file system on which
the writer has nothing left to do. -/
theorem writeReport_settles (fs : Node) (monthDir : Path) (name content : String) :
    Settled (writeReport fs monthDir (filepathJoin monthDir name) content).2 monthDir
      (filepathJoin monthDir name) := by
  have hfound : ∀ fs1 : Node, osIsNotExist (osStat fs1 (filepathJoin monthDir name)) = false →
      Settled fs1 monthDir (filepathJoin monthDir name) := by
    intro fs1 hf
    constructor
    · intro hm
      have := stat_notExist_child fs1 monthDir name hm
      simp only [filepathJoin] at hf
      rw [hf] at this
      exact absurd this (by decide)
    · intro _ hf2
      rw [hf] at hf2
      exact absurd hf2 (by decide)
  have hwrite : ∀ fs2 : Node, osIsNotExist (osStat fs2 monthDir) = false →
      Settled (if osIsNotExist (osStat fs2 (filepathJoin monthDir name)) = true then
          match osWriteFile fs2 (filepathJoin monthDir name) content with
          | .error err => ((.error err : Except Error Path), fs2)
          | .ok fs1 => (.ok (filepathJoin monthDir name), fs1)
        else (.ok (filepathJoin monthDir name), fs2)).2 monthDir (filepathJoin monthDir name) := by
    intro fs2 hm2
    cases hsf : osIsNotExist (osStat fs2 (filepathJoin monthDir name)) with
    | false => exact hfound fs2 hsf
    | true =>
      simp only [if_true]
      cases hwf : osWriteFile fs2 (filepathJoin monthDir name) content with
      | error e =>
        refine ⟨fun hm => ?_, fun _ _ c2 => osWriteFile_error_indep fs2 _ content c2 e hsf hwf⟩
        rw [hm2] at hm
        exact absurd hm (by decide)
      | ok fs3 =>
        apply hfound
        obtain ⟨_, hput⟩ := osWriteFile_new fs2 fs3 _ content hsf hwf
        simp only
        rw [stat_put_self _ _ _ _ _ hput]
        rfl
  simp only [writeReport]
  cases hsm : osIsNotExist (osStat fs monthDir) with
  | false =>
    simp only [Bool.false_eq_true, if_false]
    exact hwrite fs hsm
  | true =>
    simp only [if_true]
    cases hmk : osMkdir fs monthDir with
    | error e =>
      refine ⟨fun _ fs2 h2 => ?_, fun hm => ?_⟩
      · rw [hmk] at h2
        simp at h2
      · rw [hsm] at hm
        exact absurd hm (by decide)
    | ok fs2 =>
      apply hwrite
      obtain ⟨_, hput⟩ := osMkdir_ok fs fs2 monthDir hmk
      rw [stat_put_self _ _ _ _ _ hput]
      rfl

/-- A second call of the writer for the same paths writes nothing, whatever
the first call returned and whatever the contents. -/
theorem writeReport_twice (fs : Node) (monthDir : Path) (name content content2 : String) :
    (writeReport (writeReport fs monthDir (filepathJoin monthDir name) content).2 monthDir
        (filepathJoin monthDir name) content2).2
      = (writeReport fs monthDir (filepathJoin monthDir name) content).2 :=
  writeReport_of_settled _ _ _ _ (writeReport_settles fs monthDir name content)

/-- With a configuration and resolved dates, `writeToFile` is the writer
applied to the resolved month directory and report path. -/
theorem writeToFile_eq (env : Env) (lastWeek : Bool) (cfg : GoWeekConfig) (di : DateInfo)
    (hc : env.config = .ok cfg) (hd : getDateInfo env lastWeek = .ok di) (fs : Node)
    (content : String) :
    writeToFile env fs content lastWeek
      = writeReport fs (monthDirOf cfg di) (reportFileOf cfg di) content := by
  simp only [writeToFile, readConfig, hc, hd]

/-- C4: when an object exists at the resolved report path, `writeToFile`
returns that path without error and leaves the whole file system as it was,
whatever the content; after any call that returns a path, a second call at the
same reference instant returns the same path and leaves the file system as the
first call left it, whatever content it is given; the first statement holds as
soon as `os.Stat` of the report path does not fail with a not-exist error; and
whatever the first call returned, the second call writes nothing. -/
theorem C4_no_overwrite (env : Env) (lastWeek : Bool) (cfg : GoWeekConfig) (di : DateInfo)
    (hc : env.config = .ok cfg) (hd : getDateInfo env lastWeek = .ok di) :
    (∀ (fs : Node) (content : String), (fs.lookup (reportFileOf cfg di)).isSome = true →
      writeToFile env fs content lastWeek = (.ok (reportFileOf cfg di), fs)) ∧
    (∀ (fs fs1 : Node) (content content2 : String) (p : Path),
      writeToFile env fs content lastWeek = (.ok p, fs1) →
      p = reportFileOf cfg di ∧ writeToFile env fs1 content2 lastWeek = (.ok p, fs1)) ∧
    (∀ (fs : Node) (content : String),
      osIsNotExist (osStat fs (reportFileOf cfg di)) = false →
      writeToFile env fs content lastWeek = (.ok (reportFileOf cfg di), fs)) ∧
    (∀ (fs : Node) (content content2 : String),
      (writeToFile env (writeToFile env fs content lastWeek).2 content2 lastWeek).2
        = (writeToFile env fs content lastWeek).2) := by
  have hw := writeToFile_eq env lastWeek cfg di hc hd
  have h1 : ∀ (fs : Node) (content : String),
      osIsNotExist (osStat fs (reportFileOf cfg di)) = false →
      writeToFile env fs content lastWeek = (.ok (reportFileOf cfg di), fs) := by
    intro fs content hex
    rw [hw]
    exact writeReport_existing fs (monthDirOf cfg di) _ content hex
  refine ⟨?_, ?_, h1, ?_⟩
  rotate_left 2
  · intro fs content content2
    rw [hw, hw]
    exact writeReport_twice fs (monthDirOf cfg di) _ content content2
  · intro fs content hex
    apply h1
    cases hn : osIsNotExist (osStat fs (reportFileOf cfg di)) with
    | false => rfl
    | true =>
      rw [lookup_of_stat_notExist fs _ hn] at hex
      simp at hex
  · intro fs fs1 content content2 p hcall
    rw [hw] at hcall
    obtain ⟨e, hex⟩ := writeReport_ok _ _ _ _ _ _ hcall
    subst e
    exact ⟨rfl, h1 fs1 content2 hex⟩

theorem C4_no_overwrite_witness :
    sampleEnv.config = .ok { DocsDir := ["docs"], TyporaPath := "typora" } ∧
    getDateInfo sampleEnv false = .ok
      { Week := "20", WeekStart := "2024/05/13", WeekEnd := "2024/05/17", Month := "2024-05" } ∧
    (sampleFS.lookup ["docs", "2024-05", "weekly-report-20.md"]).isSome = true ∧
    writeToFile sampleEnv sampleFS "new" false
      = (.ok ["docs", "2024-05", "weekly-report-20.md"], sampleFS) ∧
    writeToFile sampleEnv emptyDocsFS "first" false
      = (.ok ["docs", "2024-05", "weekly-report-20.md"],
          .dir true true [("docs", .dir true true
            [("2024-05", .dir true true [("weekly-report-20.md", .file "first")])])]) ∧
    writeToFile sampleEnv
        (.dir true true [("docs", .dir true true
          [("2024-05", .dir true true [("weekly-report-20.md", .file "first")])])])
        "second" false
      = (.ok ["docs", "2024-05", "weekly-report-20.md"],
          .dir true true [("docs", .dir true true
            [("2024-05", .dir true true [("weekly-report-20.md", .file "first")])])]) ∧
    osStat docsIsFileFS ["docs", "2024-05", "weekly-report-20.md"] = .error .notDir ∧
    writeToFile sampleEnv docsIsFileFS "new" false
      = (.ok ["docs", "2024-05", "weekly-report-20.md"], docsIsFileFS) ∧
    writeToFile sampleEnv lockedDocsFS "new" false
      = (.ok ["docs", "2024-05", "weekly-report-20.md"], lockedDocsFS) :=
  ⟨rfl, rfl, rfl,
    (C4_no_overwrite sampleEnv false { DocsDir := ["docs"], TyporaPath := "typora" }
      { Week := "20", WeekStart := "2024/05/13", WeekEnd := "2024/05/17", Month := "2024-05" }
      rfl rfl).1 sampleFS "new" rfl,
    rfl,
    ((C4_no_overwrite sampleEnv false { DocsDir := ["docs"], TyporaPath := "typora" }
      { Week := "20", WeekStart := "2024/05/13", WeekEnd := "2024/05/17", Month := "2024-05" }
      rfl rfl).2.1 emptyDocsFS _ "first" "second" _ rfl).2,
    rfl,
    (C4_no_overwrite sampleEnv false { DocsDir := ["docs"], TyporaPath := "typora" }
      { Week := "20", WeekStart := "2024/05/13", WeekEnd := "2024/05/17", Month := "2024-05" }
      rfl rfl).2.2.1 docsIsFileFS "new" rfl,
    (C4_no_overwrite sampleEnv false { DocsDir := ["docs"], TyporaPath := "typora" }
      { Week := "20", WeekStart := "2024/05/13", WeekEnd := "2024/05/17", Month := "2024-05" }
      rfl rfl).1 lockedDocsFS "new" rfl⟩

/-! ## Top-level action -/

/-- In generate mode a failure of `readTemplate` ends `mainAction` with a nil
error and an untouched file system. -/
theorem mainAction_template_error (env : Env) (ctx : Flags) (fs : Node) (err : Error)
    (hg : ctx.git = false) (ht : env.template = .error err) :
    mainAction env ctx fs = (.ok (), fs) := by
  simp [mainAction, hg, readTemplate, ht]

/-- C2 (failing input): in generate mode with an unreadable template,
`readTemplate` returns an error and `mainAction` returns nil, writing nothing. -/
theorem C2_template_error_is_dropped :
    (∃ err, readTemplate missingTemplateEnv = .error err) ∧
    mainAction missingTemplateEnv { git := false, lastWeek := false } emptyDocsFS
      = (.ok (), emptyDocsFS) :=
  ⟨⟨_, rfl⟩, rfl⟩

/-- In generate mode, an error of the date resolution (in `fillTemplate`) or
of `writeToFile` is returned by `mainAction`. -/
theorem mainAction_propagates (env : Env) (ctx : Flags) (fs : Node) (tpl : String)
    (hg : ctx.git = false) (ht : env.template = .ok tpl) :
    (∀ err, fillTemplate env tpl ctx.lastWeek = .error err →
      (mainAction env ctx fs).1 = .error err) ∧
    (∀ content err fs1, fillTemplate env tpl ctx.lastWeek = .ok content →
      writeToFile env fs content ctx.lastWeek = (.error err, fs1) →
      (mainAction env ctx fs).1 = .error err) := by
  constructor
  · intro err hf
    simp [mainAction, hg, readTemplate, ht, hf]
  · intro content err fs1 hf hw
    simp [mainAction, hg, readTemplate, ht, hf, hw]

/-! ## One report per week -/

/-- Instants with the same ISO year and week number lie in the same
Monday-based week. -/
theorem ISOWeek_inj (s t : Time) (h : s.ISOWeek = t.ISOWeek) :
    s.abs / 86400 / 7 = t.abs / 86400 / 7 := by
  rw [ISOWeek_eq, ISOWeek_eq] at h
  have hs := absYearDay_sound (7 * (s.abs / 86400 / 7) + 3)
  have ht := absYearDay_sound (7 * (t.abs / 86400 / 7) + 3)
  have rs := (absYearDay_range (7 * (s.abs / 86400 / 7) + 3)).1
  have rt := (absYearDay_range (7 * (t.abs / 86400 / 7) + 3)).1
  simp only [Prod.mk.injEq] at h
  obtain ⟨hy, hr⟩ := h
  rw [hy] at hs
  omega

/-- Moving two instants of one ISO week back by seven days keeps them in one
ISO week. -/
theorem ISOWeek_shift (s t : Time) (h : s.ISOWeek = t.ISOWeek) :
    (s.AddDate 0 0 (-7)).ISOWeek = (t.AddDate 0 0 (-7)).ISOWeek := by
  have hi := ISOWeek_inj s t h
  apply ISOWeek_congr
  rw [AddDate_days_abs, AddDate_days_abs]
  have e1 : (s.abs + -7 * 86400) / 86400 = s.abs / 86400 - 7 := by omega
  have e2 : (t.abs + -7 * 86400) / 86400 = t.abs / 86400 - 7 := by omega
  rw [e1, e2]
  omega

theorem Format_month (t : Time) :
    t.Format "2006-01"
      = ⟨appendInt (absDate t.abs).year 4 ++ '-' :: (appendInt (absDate t.abs).month 2 ++ [])⟩ :=
  rfl

/-- C3 (counterexample): Monday 29 April 2024 and Wednesday 1 May 2024 lie in
the same ISO week (2024, 18), yet with the same configuration and flag
`writeToFile` resolves two different paths, and the second invocation creates
a second report for that week. -/
theorem C3_counterexample :
    aprilEnv.now.ISOWeek = (2024, 18) ∧ mayEnv.now.ISOWeek = (2024, 18) ∧
    writeToFile aprilEnv emptyDocsFS "a" false
      = (.ok ["docs", "2024-04", "weekly-report-18.md"],
          .dir true true [("docs", .dir true true
            [("2024-04", .dir true true [("weekly-report-18.md", .file "a")])])]) ∧
    writeToFile mayEnv
        (.dir true true [("docs", .dir true true
          [("2024-04", .dir true true [("weekly-report-18.md", .file "a")])])]) "b" false
      = (.ok ["docs", "2024-05", "weekly-report-18.md"],
          .dir true true [("docs", .dir true true
            [("2024-04", .dir true true [("weekly-report-18.md", .file "a")]),
             ("2024-05", .dir true true [("weekly-report-18.md", .file "b")])])]) ∧
    (["docs", "2024-04", "weekly-report-18.md"] : Path)
      ≠ ["docs", "2024-05", "weekly-report-18.md"] :=
  ⟨by decide, by decide, rfl, rfl, by decide⟩

/-- C3 (amended): two reference instants of the same ISO week whose reference
days (after the optional shift) also share calendar year and month resolve,
under the same configuration and flag, to the same report path; once a call at
the first instant has returned a path, a call at the second returns that same
path and writes nothing; and whatever the call at the first instant returned,
the call at the second leaves the file system as the first left it. -/
theorem C3_same_week_and_month_same_path (env1 env2 : Env) (lastWeek : Bool)
    (cfg : GoWeekConfig)
    (h1 : env1.loadLocation = .ok ()) (h2 : env2.loadLocation = .ok ())
    (hc1 : env1.config = .ok cfg) (hc2 : env2.config = .ok cfg)
    (hw : env1.now.ISOWeek = env2.now.ISOWeek)
    (hy : (absDate (referenceInstant env1 lastWeek).abs).year
      = (absDate (referenceInstant env2 lastWeek).abs).year)
    (hm : (absDate (referenceInstant env1 lastWeek).abs).month
      = (absDate (referenceInstant env2 lastWeek).abs).month) :
    ∃ di1 di2, getDateInfo env1 lastWeek = .ok di1 ∧ getDateInfo env2 lastWeek = .ok di2 ∧
      reportFileOf cfg di1 = reportFileOf cfg di2 ∧
      (∀ (fs fs1 : Node) (content content2 : String) (p : Path),
        writeToFile env1 fs content lastWeek = (.ok p, fs1) →
        p = reportFileOf cfg di1 ∧ writeToFile env2 fs1 content2 lastWeek = (.ok p, fs1)) ∧
      (∀ (fs : Node) (content content2 : String),
        (writeToFile env2 (writeToFile env1 fs content lastWeek).2 content2 lastWeek).2
          = (writeToFile env1 fs content lastWeek).2) := by
  have hweek : (referenceInstant env1 lastWeek).ISOWeek
      = (referenceInstant env2 lastWeek).ISOWeek := by
    cases lastWeek with
    | false => exact hw
    | true => exact ISOWeek_shift _ _ hw
  obtain ⟨di1, hd1, hW1, hM1⟩ : ∃ di, getDateInfo env1 lastWeek = .ok di ∧
      di.Week = sprintf02d (referenceInstant env1 lastWeek).ISOWeek.2 ∧
      di.Month = (referenceInstant env1 lastWeek).Format "2006-01" :=
    ⟨_, getDateInfo_ok env1 lastWeek h1, rfl, rfl⟩
  obtain ⟨di2, hd2, hW2, hM2⟩ : ∃ di, getDateInfo env2 lastWeek = .ok di ∧
      di.Week = sprintf02d (referenceInstant env2 lastWeek).ISOWeek.2 ∧
      di.Month = (referenceInstant env2 lastWeek).Format "2006-01" :=
    ⟨_, getDateInfo_ok env2 lastWeek h2, rfl, rfl⟩
  have hW : di2.Week = di1.Week := by rw [hW1, hW2, hweek]
  have hM : di2.Month = di1.Month := by rw [hM1, hM2, Format_month, Format_month, hy, hm]
  have hmd : monthDirOf cfg di2 = monthDirOf cfg di1 := by simp only [monthDirOf, hM]
  have hp : reportFileOf cfg di2 = reportFileOf cfg di1 := by
    simp only [reportFileOf, monthDirOf, hM, hW]
  refine ⟨di1, di2, hd1, hd2, hp.symm, ?_, ?_⟩
  · intro fs fs1 content content2 p hcall
    rw [writeToFile_eq env1 lastWeek cfg di1 hc1 hd1] at hcall
    obtain ⟨e, hex⟩ := writeReport_ok _ _ _ _ _ _ hcall
    subst e
    refine ⟨rfl, ?_⟩
    rw [writeToFile_eq env2 lastWeek cfg di2 hc2 hd2, hmd, hp]
    exact writeReport_existing fs1 _ _ content2 hex
  · intro fs content content2
    rw [writeToFile_eq env1 lastWeek cfg di1 hc1 hd1,
      writeToFile_eq env2 lastWeek cfg di2 hc2 hd2, hmd, hp]
    exact writeReport_twice fs (monthDirOf cfg di1) _ content content2

theorem C3_same_week_and_month_same_path_witness :
    mondayEnv.loadLocation = .ok () ∧ sundayEnv.loadLocation = .ok () ∧
    mondayEnv.config = .ok { DocsDir := ["docs"], TyporaPath := "typora" } ∧
    sundayEnv.config = .ok { DocsDir := ["docs"], TyporaPath := "typora" } ∧
    mondayEnv.now ≠ sundayEnv.now ∧
    mondayEnv.now.ISOWeek = sundayEnv.now.ISOWeek ∧
    (absDate (referenceInstant mondayEnv true).abs).year
      = (absDate (referenceInstant sundayEnv true).abs).year ∧
    (absDate (referenceInstant mondayEnv true).abs).month
      = (absDate (referenceInstant sundayEnv true).abs).month ∧
    writeToFile mondayEnv emptyDocsFS "first" true
      = (.ok ["docs", "2024-05", "weekly-report-19.md"],
          .dir true true [("docs", .dir true true
            [("2024-05", .dir true true [("weekly-report-19.md", .file "first")])])]) ∧
    writeToFile sundayEnv
        (.dir true true [("docs", .dir true true
          [("2024-05", .dir true true [("weekly-report-19.md", .file "first")])])])
        "second" true
      = (.ok ["docs", "2024-05", "weekly-report-19.md"],
          .dir true true [("docs", .dir true true
            [("2024-05", .dir true true [("weekly-report-19.md", .file "first")])])]) :=
  ⟨rfl, rfl, rfl, rfl, by decide, by decide, by decide, by decide, rfl,
    match C3_same_week_and_month_same_path mondayEnv sundayEnv true
      { DocsDir := ["docs"], TyporaPath := "typora" } rfl rfl rfl rfl
      (by decide) (by decide) (by decide) with
    | ⟨_, _, _, _, _, h, _⟩ => (h emptyDocsFS _ "first" "second" _ rfl).2⟩

/-! ## Template substitution -/

theorem replaceScan_eq_substScan (old new : List Char) (k : Nat) (s : List Char) :
    replaceScan old new k s = substScan [(old, new)] k s := by
  induction s generalizing k with
  | nil => cases k <;> simp [replaceScan, substScan]
  | cons c s ih =>
    cases k with
    | succ k => simp only [replaceScan, substScan, ih]
    | zero =>
      simp only [replaceScan, substScan, List.find?]
      cases h : old.isPrefixOf (c :: s) <;> simp [ih]

theorem substScan_skip (rules : List (List Char × List Char)) (k : Nat) (s : List Char) :
    substScan rules k s = substScan rules 0 (s.drop k) := by
  induction s generalizing k with
  | nil => cases k <;> simp [substScan]
  | cons c s ih =>
    cases k with
    | succ k => simp only [substScan, List.drop_succ_cons, ih k]
    | zero => simp

theorem substScan_match (rules : List (List Char × List Char)) (r : List Char × List Char)
    (s : List Char) (hne : r.1 ≠ [])
    (h : rules.find? (fun r => r.1.isPrefixOf s) = some r) :
    substScan rules 0 s = r.2 ++ substScan rules 0 (s.drop r.1.length) := by
  cases s with
  | nil =>
    have := List.find?_some h
    simp only [List.isPrefixOf_iff_prefix, List.prefix_nil] at this
    exact absurd this hne
  | cons c s =>
    simp only [substScan, h]
    rw [substScan_skip]
    congr 2
    cases hr : r.1 with
    | nil => exact absurd hr hne
    | cons a p => simp

theorem substScan_nomatch (rules : List (List Char × List Char)) (c : Char) (s : List Char)
    (h : rules.find? (fun r => r.1.isPrefixOf (c :: s)) = none) :
    substScan rules 0 (c :: s) = c :: substScan rules 0 s := by
  simp only [substScan, h]

theorem find_none_of_no_start (rules : List (List Char × List Char)) (s : List Char)
    (h : ∀ r ∈ rules, ¬ r.1 <+: s) :
    rules.find? (fun r => r.1.isPrefixOf s) = none := by
  rw [List.find?_eq_none]
  intro r hr
  simp only [List.isPrefixOf_iff_prefix]
  exact h r hr

/-- A text written in the pattern alphabet that starts the output starts the
input. -/
theorem substScan_starts (isPat : Char → Prop) (rules : List (List Char × List Char))
    (hok : RulesOK isPat rules) (s P : List Char) (hP : ∀ c ∈ P, isPat c)
    (h : P <+: substScan rules 0 s) : P <+: s := by
  induction s generalizing P with
  | nil => simpa [substScan] using h
  | cons c s ih =>
    cases P with
    | nil => exact List.nil_prefix
    | cons p P =>
      cases hf : rules.find? (fun r => r.1.isPrefixOf (c :: s)) with
      | none =>
        rw [substScan_nomatch rules c s hf, List.cons_prefix_cons] at h
        rw [List.cons_prefix_cons]
        exact ⟨h.1, ih P (fun x hx => hP x (List.mem_cons_of_mem _ hx)) h.2⟩
      | some r =>
        obtain ⟨_, hv, _, hnp⟩ := hok r (List.mem_of_find?_eq_some hf)
        simp only [substScan, hf] at h
        cases hr : r.2 with
        | nil => exact absurd hr hv
        | cons a w =>
          rw [hr, List.cons_append, List.cons_prefix_cons] at h
          have h1 : isPat p := hP p (List.mem_cons_self _ _)
          have h2 : ¬ isPat a := hnp a (by rw [hr]; exact List.mem_cons_self _ _)
          rw [h.1] at h1
          exact absurd h1 h2

/-- A stretch of value characters is copied. -/
theorem substScan_value (isPat : Char → Prop) (rules : List (List Char × List Char))
    (hok : RulesOK isPat rules) (w x : List Char) (hw : ∀ c ∈ w, ¬ isPat c) :
    substScan rules 0 (w ++ x) = w ++ substScan rules 0 x := by
  induction w with
  | nil => rfl
  | cons a w ih =>
    have hf : rules.find? (fun r => r.1.isPrefixOf (a :: (w ++ x))) = none := by
      apply find_none_of_no_start
      intro r hr hpre
      obtain ⟨hne, _, hp, _⟩ := hok r hr
      cases h1 : r.1 with
      | nil => exact hne h1
      | cons b q =>
        rw [h1, List.cons_prefix_cons] at hpre
        have : isPat b := hp b (by rw [h1]; exact List.mem_cons_self _ _)
        rw [hpre.1] at this
        exact hw a (List.mem_cons_self _ _) this
    rw [List.cons_append, substScan_nomatch rules a (w ++ x) hf,
      ih (fun c hc => hw c (List.mem_cons_of_mem _ hc))]
    rfl

theorem prefix_append_cases (q u t : List Char) (h : q <+: u ++ t) : q <+: u ∨ u <+: q :=
  List.prefix_or_prefix_of_prefix h (List.prefix_append u t)

/-- An occurrence of a pattern that overlaps no rule is copied. -/
theorem substScan_through (rules : List (List Char × List Char)) (u t : List Char)
    (h : ∀ v ∈ u.tails, v ≠ [] → ∀ r ∈ rules, ¬ r.1 <+: v ∧ ¬ v <+: r.1) :
    substScan rules 0 (u ++ t) = u ++ substScan rules 0 t := by
  induction u with
  | nil => rfl
  | cons a u ih =>
    have hf : rules.find? (fun r => r.1.isPrefixOf (a :: (u ++ t))) = none := by
      apply find_none_of_no_start
      intro r hr hpre
      have h1 := h (a :: u) (by simp) (by simp) r hr
      rcases prefix_append_cases r.1 (a :: u) t hpre with h2 | h2
      · exact h1.1 h2
      · exact h1.2 h2
    have hih := ih (fun v hv hne r hr =>
      h v (by simp only [List.tails, List.mem_cons]; exact Or.inr hv) hne r hr)
    rw [List.cons_append, substScan_nomatch rules a (u ++ t) hf, hih]
    rfl

theorem find_head (old new : List Char) (rules : List (List Char × List Char)) (s : List Char)
    (h : old <+: s) :
    ((old, new) :: rules).find? (fun r => r.1.isPrefixOf s) = some (old, new) := by
  have : old.isPrefixOf s = true := List.isPrefixOf_iff_prefix.mpr h
  simp [List.find?, this]

theorem find_tail (old new : List Char) (rules : List (List Char × List Char)) (s : List Char)
    (h : ¬ old <+: s) :
    ((old, new) :: rules).find? (fun r => r.1.isPrefixOf s)
      = rules.find? (fun r => r.1.isPrefixOf s) := by
  have : old.isPrefixOf s = false := by
    rw [← Bool.not_eq_true, List.isPrefixOf_iff_prefix]
    exact h
  simp [List.find?, this]

/-- Replacing one more pattern after a pass is the pass with that rule added,
provided no occurrence of another pattern begins inside an occurrence of the
new one. -/
theorem substScan_compose (isPat : Char → Prop) (old new : List Char)
    (rules : List (List Char × List Char)) (hok : RulesOK isPat ((old, new) :: rules))
    (hov : ∀ r ∈ rules, NoOverlap old r.1) (n : Nat) (s : List Char) (hn : s.length ≤ n) :
    substScan [(old, new)] 0 (substScan rules 0 s) = substScan ((old, new) :: rules) 0 s := by
  have hok1 : RulesOK isPat [(old, new)] := fun r hr =>
    hok r (by simp only [List.mem_singleton] at hr; rw [hr]; exact List.mem_cons_self _ _)
  have hokr : RulesOK isPat rules := fun r hr => hok r (List.mem_cons_of_mem _ hr)
  obtain ⟨hone, _, hop, _⟩ := hok (old, new) (List.mem_cons_self _ _)
  simp only at hone hop
  induction n generalizing s with
  | zero =>
    have : s = [] := List.eq_nil_of_length_eq_zero (by omega)
    subst this
    rfl
  | succ n ih =>
    cases s with
    | nil => rfl
    | cons c s =>
      by_cases hold : old <+: c :: s
      · obtain ⟨t, ht⟩ := hold
        have hlen : t.length ≤ n := by
          have := congrArg List.length ht
          have h0 : 0 < old.length := List.length_pos.mpr hone
          simp only [List.length_append, List.length_cons] at this hn
          omega
        rw [← ht, substScan_through rules old t
          (fun v hv hne r hr => hov r hr v hv hne)]
        rw [substScan_match _ (old, new) _ hone (find_head old new [] _ (List.prefix_append _ _)),
          substScan_match _ (old, new) _ hone (find_head old new rules _ (List.prefix_append _ _))]
        simp only [List.drop_left]
        rw [ih t hlen]
      · cases hf : rules.find? (fun r => r.1.isPrefixOf (c :: s)) with
        | none =>
          have hf2 : ((old, new) :: rules).find? (fun r => r.1.isPrefixOf (c :: s)) = none := by
            rw [find_tail old new rules _ hold]
            exact hf
          have hnp : ¬ old <+: c :: substScan rules 0 s := by
            intro hpre
            rw [← substScan_nomatch rules c s hf] at hpre
            exact hold (substScan_starts isPat rules hokr _ old hop hpre)
          have hf3 : [(old, new)].find? (fun r => r.1.isPrefixOf (c :: substScan rules 0 s))
              = none := by
            rw [find_tail old new [] _ hnp]
            rfl
          rw [substScan_nomatch rules c s hf, substScan_nomatch _ c s hf2,
            substScan_nomatch _ c _ hf3, ih s (by simpa using hn)]
        | some r =>
          have hr := List.mem_of_find?_eq_some hf
          obtain ⟨hne, _, _, hnp⟩ := hokr r hr
          have hf2 : ((old, new) :: rules).find? (fun r => r.1.isPrefixOf (c :: s)) = some r := by
            rw [find_tail old new rules _ hold]
            exact hf
          have hlen : ((c :: s).drop r.1.length).length ≤ n := by
            have h0 : 0 < r.1.length := List.length_pos.mpr hne
            simp only [List.length_drop, List.length_cons] at hn ⊢
            omega
          rw [substScan_match rules r _ hne hf, substScan_match _ r _ hne hf2,
            substScan_value isPat _ hok1 r.2 _ hnp, ih _ hlen]

/-- The pass does not depend on the order of the rules when the same rule is
found first at every position. -/
theorem substScan_congr (rules1 rules2 : List (List Char × List Char))
    (h : ∀ s, rules1.find? (fun r => r.1.isPrefixOf s) = rules2.find? (fun r => r.1.isPrefixOf s))
    (k : Nat) (s : List Char) : substScan rules1 k s = substScan rules2 k s := by
  induction s generalizing k with
  | nil => cases k <;> simp [substScan]
  | cons c s ih =>
    cases k with
    | succ k => simp only [substScan, ih]
    | zero =>
      simp only [substScan, h (c :: s)]
      cases rules2.find? (fun r => r.1.isPrefixOf (c :: s)) with
      | none => simp only [ih]
      | some r => simp only [ih]

theorem infix_of_infix_value_append (isPat : Char → Prop) (Q w x : List Char) (hne : Q ≠ [])
    (hQ : ∀ c ∈ Q, isPat c) (hw : ∀ c ∈ w, ¬ isPat c) (h : Q <:+: w ++ x) : Q <:+: x := by
  induction w with
  | nil => exact h
  | cons a w ih =>
    rw [List.cons_append, List.infix_cons_iff] at h
    rcases h with h | h
    · cases Q with
      | nil => exact absurd rfl hne
      | cons q Q =>
        rw [List.cons_prefix_cons] at h
        have h1 : isPat q := hQ q (List.mem_cons_self _ _)
        rw [h.1] at h1
        exact absurd h1 (hw a (List.mem_cons_self _ _))
    · exact ih (fun c hc => hw c (List.mem_cons_of_mem _ hc)) h

/-- No pattern of the rules occurs in the output of the pass. -/
theorem substScan_no_pattern (isPat : Char → Prop) (rules : List (List Char × List Char))
    (hok : RulesOK isPat rules) (r : List Char × List Char) (hr : r ∈ rules)
    (n : Nat) (s : List Char) (hn : s.length ≤ n) : ¬ r.1 <:+: substScan rules 0 s := by
  obtain ⟨hne, _, hp, _⟩ := hok r hr
  induction n generalizing s with
  | zero =>
    have : s = [] := List.eq_nil_of_length_eq_zero (by omega)
    subst this
    intro h
    simp only [substScan, List.infix_nil] at h
    exact hne h
  | succ n ih =>
    cases s with
    | nil =>
      intro h
      simp only [substScan, List.infix_nil] at h
      exact hne h
    | cons c s =>
      cases hf : rules.find? (fun r => r.1.isPrefixOf (c :: s)) with
      | none =>
        intro h
        have hpre : r.1 <+: substScan rules 0 (c :: s) ∨ r.1 <:+: substScan rules 0 s := by
          rw [substScan_nomatch rules c s hf] at h ⊢
          exact List.infix_cons_iff.mp h
        rcases hpre with h1 | h1
        · have h2 := substScan_starts isPat rules hok _ r.1 hp h1
          rw [List.find?_eq_none] at hf
          have := hf r hr
          simp only [List.isPrefixOf_iff_prefix] at this
          exact this h2
        · exact ih s (by simpa using hn) h1
      | some r2 =>
        have hr2 := List.mem_of_find?_eq_some hf
        obtain ⟨hne2, _, _, hnp2⟩ := hok r2 hr2
        have hlen : ((c :: s).drop r2.1.length).length ≤ n := by
          have h0 : 0 < r2.1.length := List.length_pos.mpr hne2
          simp only [List.length_drop, List.length_cons] at hn ⊢
          omega
        rw [substScan_match rules r2 _ hne2 hf]
        intro h
        exact ih _ hlen (infix_of_infix_value_append isPat r.1 r2.2 _ hne hp hnp2 h)

theorem value_not_placeholder (c : Char) (h : isValueChar c) : ¬ isPlaceholderChar c := by
  rcases h with h | h | ⟨k, hk, h⟩
  · subst h
    simp only [isPlaceholderChar]
    decide
  · subst h
    simp only [isPlaceholderChar]
    decide
  · subst h
    simp only [isPlaceholderChar]
    interval_cases k <;> decide

theorem digitsAux_chars (fuel n : Nat) (acc : List Char) (h : ∀ c ∈ acc, isValueChar c) :
    ∀ c ∈ digitsAux fuel n acc, isValueChar c := by
  induction fuel generalizing n acc with
  | zero => exact h
  | succ fuel ih =>
    have h2 : ∀ c ∈ Char.ofNat (48 + n % 10) :: acc, isValueChar c := by
      intro c hc
      rcases List.mem_cons.mp hc with hc | hc
      · exact Or.inr (Or.inr ⟨n % 10, Nat.mod_lt _ (by decide), hc⟩)
      · exact h c hc
    simp only [digitsAux]
    split
    · exact h2
    · exact ih _ _ h2

theorem digitsAux_ne_nil (fuel n : Nat) (acc : List Char) (h : fuel ≠ 0 ∨ acc ≠ []) :
    digitsAux fuel n acc ≠ [] := by
  induction fuel generalizing n acc with
  | zero =>
    rcases h with h | h
    · exact absurd rfl h
    · exact h
  | succ fuel ih =>
    simp only [digitsAux]
    split
    · simp
    · exact ih _ _ (Or.inr (by simp))

theorem decimal_chars (n : Nat) : ∀ c ∈ decimal n, isValueChar c :=
  digitsAux_chars _ _ [] (by simp)

theorem decimal_ne_nil (n : Nat) : decimal n ≠ [] :=
  digitsAux_ne_nil _ _ [] (Or.inl (by omega))

theorem padded_chars (k n : Nat) : ∀ c ∈ List.replicate k '0' ++ decimal n, isValueChar c := by
  intro c hc
  rcases List.mem_append.mp hc with hc | hc
  · have := (List.mem_replicate.mp hc).2
    exact Or.inr (Or.inr ⟨0, by decide, this⟩)
  · exact decimal_chars n c hc

theorem appendInt_chars (x : Int) (w : Nat) : ∀ c ∈ appendInt x w, isValueChar c := by
  intro c hc
  simp only [appendInt] at hc
  split at hc
  · rcases List.mem_cons.mp hc with hc | hc
    · exact Or.inl hc
    · exact padded_chars _ _ c hc
  · exact padded_chars _ _ c hc

theorem sprintf02d_chars (x : Int) : ∀ c ∈ (sprintf02d x).data, isValueChar c := by
  intro c hc
  simp only [sprintf02d] at hc
  split at hc
  · rcases List.mem_cons.mp hc with hc | hc
    · exact Or.inl hc
    · exact padded_chars _ _ c hc
  · exact padded_chars _ _ c hc

theorem sprintf02d_ne_nil (x : Int) : (sprintf02d x).data ≠ [] := by
  simp only [sprintf02d]
  split
  · simp
  · simp [decimal_ne_nil]

theorem Format_date (t : Time) :
    t.Format "2006/01/02"
      = ⟨appendInt (absDate t.abs).year 4 ++ '/' :: (appendInt (absDate t.abs).month 2
          ++ '/' :: (appendInt (absDate t.abs).day 2 ++ []))⟩ :=
  rfl

theorem Format_date_chars (t : Time) : ∀ c ∈ (t.Format "2006/01/02").data, isValueChar c := by
  intro c hc
  rw [Format_date] at hc
  simp only [List.mem_append, List.mem_cons, List.append_nil] at hc
  rcases hc with hc | hc | hc | hc | hc
  · exact appendInt_chars _ _ c hc
  · exact Or.inr (Or.inl hc)
  · exact appendInt_chars _ _ c hc
  · exact Or.inr (Or.inl hc)
  · exact appendInt_chars _ _ c hc

theorem Format_date_ne_nil (t : Time) : (t.Format "2006/01/02").data ≠ [] := by
  rw [Format_date]
  simp

theorem getDateInfo_values (env : Env) (lastWeek : Bool) (di : DateInfo)
    (h : getDateInfo env lastWeek = .ok di) : ValuesOK di := by
  simp only [getDateInfo] at h
  split at h
  · simp at h
  · simp only [Except.ok.injEq] at h
    subst h
    exact ⟨⟨sprintf02d_ne_nil _, sprintf02d_chars _⟩,
      ⟨Format_date_ne_nil _, Format_date_chars _⟩,
      ⟨Format_date_ne_nil _, Format_date_chars _⟩⟩

theorem ruleOf_ok (p v : String) (hp : p.data ≠ []) (hpc : ∀ c ∈ p.data, isPlaceholderChar c)
    (hv : v.data ≠ [] ∧ ∀ c ∈ v.data, isValueChar c) :
    RulesOK isPlaceholderChar [ruleOf p v] := by
  intro r hr
  simp only [List.mem_singleton] at hr
  subst hr
  exact ⟨hp, hv.1, hpc, fun c hc => value_not_placeholder c (hv.2 c hc)⟩

theorem rulesOK_cons (isPat : Char → Prop) (r : List Char × List Char)
    (rules : List (List Char × List Char)) (h1 : RulesOK isPat [r]) (h2 : RulesOK isPat rules) :
    RulesOK isPat (r :: rules) := by
  intro x hx
  rcases List.mem_cons.mp hx with hx | hx
  · exact h1 x (by rw [hx]; exact List.mem_singleton_self _)
  · exact h2 x hx

/-- On a placeholder and a value, `ReplaceAll` is the pass with one rule. -/
theorem ReplaceAll_eq (s p v : String) (h : RulesOK isPlaceholderChar [ruleOf p v]) :
    ReplaceAll s p v = ⟨substScan [ruleOf p v] 0 s.data⟩ := by
  obtain ⟨hp, _, hpc, hvc⟩ := h (ruleOf p v) (List.mem_singleton_self _)
  simp only [ruleOf] at hp hpc hvc
  have hne : p ≠ v := by
    intro e
    subst e
    cases hd : p.data with
    | nil => exact hp hd
    | cons a l =>
      have ha : a ∈ p.data := by rw [hd]; exact List.mem_cons_self _ _
      exact hvc a ha (hpc a ha)
  simp only [ReplaceAll, hne, if_false, hp, replaceScan_eq_substScan, ruleOf]

/-- Three replacements in a row are the pass with the three rules, the last
replacement first in the list. -/
theorem ReplaceAll_three (tpl p1 v1 p2 v2 p3 v3 : String)
    (h1 : RulesOK isPlaceholderChar [ruleOf p1 v1])
    (h2 : RulesOK isPlaceholderChar [ruleOf p2 v2])
    (h3 : RulesOK isPlaceholderChar [ruleOf p3 v3])
    (o21 : NoOverlap p2.data p1.data) (o31 : NoOverlap p3.data p1.data)
    (o32 : NoOverlap p3.data p2.data) :
    ReplaceAll (ReplaceAll (ReplaceAll tpl p1 v1) p2 v2) p3 v3
      = ⟨substScan [ruleOf p3 v3, ruleOf p2 v2, ruleOf p1 v1] 0 tpl.data⟩ := by
  rw [ReplaceAll_eq _ p3 v3 h3, ReplaceAll_eq _ p2 v2 h2, ReplaceAll_eq _ p1 v1 h1]
  simp only
  have c2 := substScan_compose isPlaceholderChar p2.data v2.data [ruleOf p1 v1]
    (rulesOK_cons _ _ _ h2 h1)
    (by intro r hr; simp only [List.mem_singleton] at hr; subst hr; exact o21)
    _ tpl.data (le_refl _)
  have c3 := substScan_compose isPlaceholderChar p3.data v3.data [ruleOf p2 v2, ruleOf p1 v1]
    (rulesOK_cons _ _ _ h3 (rulesOK_cons _ _ _ h2 h1))
    (by
      intro r hr
      simp only [List.mem_cons, List.mem_singleton, List.not_mem_nil, or_false] at hr
      rcases hr with hr | hr
      · subst hr
        exact o32
      · subst hr
        exact o31)
    _ tpl.data (le_refl _)
  simp only [ruleOf] at c2 c3 ⊢
  rw [c2, c3]

theorem find_same_members (rs1 rs2 : List (List Char × List Char))
    (p : List Char × List Char → Bool) (hmem : ∀ r, r ∈ rs1 ↔ r ∈ rs2)
    (huniq : ∀ r ∈ rs1, ∀ r2 ∈ rs1, p r = true → p r2 = true → r = r2) :
    rs1.find? p = rs2.find? p := by
  cases h1 : rs1.find? p with
  | none =>
    rw [List.find?_eq_none] at h1
    symm
    rw [List.find?_eq_none]
    intro r hr
    exact h1 r ((hmem r).mpr hr)
  | some r =>
    have hr1 := List.mem_of_find?_eq_some h1
    have hp1 := List.find?_some h1
    cases h2 : rs2.find? p with
    | none =>
      rw [List.find?_eq_none] at h2
      exact absurd hp1 (h2 r ((hmem r).mp hr1))
    | some r2 =>
      have hr2 := List.mem_of_find?_eq_some h2
      have hp2 := List.find?_some h2
      rw [huniq r hr1 r2 ((hmem r2).mpr hr2) hp1 hp2]

/-- Patterns that do not overlap cannot both start at the same position. -/
theorem no_common_start (p q s : List Char) (h : NoOverlap p q) (hp : p ≠ [])
    (h1 : p <+: s) (h2 : q <+: s) : False := by
  have := h p (by cases p <;> simp) hp
  rcases List.prefix_or_prefix_of_prefix h1 h2 with h3 | h3
  · exact this.2 h3
  · exact this.1 h3

/-- With three patterns that pairwise do not overlap, the pass is the same
for every order of the rules. -/
theorem substScan_three_order (a b c : List Char × List Char)
    (rs : List (List Char × List Char)) (hmem : ∀ r, r ∈ rs ↔ r ∈ [a, b, c])
    (ha : a.1 ≠ []) (hb : b.1 ≠ []) (hc : c.1 ≠ [])
    (hab : NoOverlap a.1 b.1) (hac : NoOverlap a.1 c.1) (hbc : NoOverlap b.1 c.1)
    (s : List Char) : substScan rs 0 s = substScan [a, b, c] 0 s := by
  apply substScan_congr
  intro x
  symm
  apply find_same_members _ _ _ (fun r => (hmem r).symm)
  intro r hr r2 hr2 h1 h2
  simp only [List.isPrefixOf_iff_prefix] at h1 h2
  simp only [List.mem_cons, List.mem_singleton, List.not_mem_nil, or_false] at hr hr2
  rcases hr with e | e | e <;> rcases hr2 with e2 | e2 | e2 <;> subst e <;> subst e2
  · rfl
  · exact (no_common_start _ _ x hab ha h1 h2).elim
  · exact (no_common_start _ _ x hac ha h1 h2).elim
  · exact (no_common_start _ _ x hab ha h2 h1).elim
  · rfl
  · exact (no_common_start _ _ x hbc hb h1 h2).elim
  · exact (no_common_start _ _ x hac ha h2 h1).elim
  · exact (no_common_start _ _ x hbc hb h2 h1).elim
  · rfl

theorem rule_week_ok (di : DateInfo) (h : ValuesOK di) :
    RulesOK isPlaceholderChar [ruleOf "\x7b\x7b.Week\x7d\x7d" di.Week] :=
  ruleOf_ok _ _ (by decide) (by decide) h.1

theorem rule_weekStart_ok (di : DateInfo) (h : ValuesOK di) :
    RulesOK isPlaceholderChar [ruleOf "\x7b\x7b.WeekStart\x7d\x7d" di.WeekStart] :=
  ruleOf_ok _ _ (by decide) (by decide) h.2.1

theorem rule_weekEnd_ok (di : DateInfo) (h : ValuesOK di) :
    RulesOK isPlaceholderChar [ruleOf "\x7b\x7b.WeekEnd\x7d\x7d" di.WeekEnd] :=
  ruleOf_ok _ _ (by decide) (by decide) h.2.2

theorem rulesOf_ok (di : DateInfo) (h : ValuesOK di) :
    RulesOK isPlaceholderChar (rulesOf di) :=
  rulesOK_cons _ _ _ (rule_week_ok di h)
    (rulesOK_cons _ _ _ (rule_weekStart_ok di h) (rule_weekEnd_ok di h))

theorem fillTemplate_eq (env : Env) (tpl : String) (lastWeek : Bool) (di : DateInfo)
    (h : getDateInfo env lastWeek = .ok di) :
    fillTemplate env tpl lastWeek = .ok
      (ReplaceAll (ReplaceAll (ReplaceAll tpl "\x7b\x7b.Week\x7d\x7d" di.Week)
        "\x7b\x7b.WeekStart\x7d\x7d" di.WeekStart) "\x7b\x7b.WeekEnd\x7d\x7d" di.WeekEnd) := by
  simp only [fillTemplate, h]

/-- Three replacements of the placeholders, in any order given by a list with
the same members as the rules, are the one-pass substitution. -/
theorem ReplaceAll_any_order (di : DateInfo) (tpl p1 v1 p2 v2 p3 v3 : String)
    (h1 : RulesOK isPlaceholderChar [ruleOf p1 v1])
    (h2 : RulesOK isPlaceholderChar [ruleOf p2 v2])
    (h3 : RulesOK isPlaceholderChar [ruleOf p3 v3])
    (o21 : NoOverlap p2.data p1.data) (o31 : NoOverlap p3.data p1.data)
    (o32 : NoOverlap p3.data p2.data)
    (hmem : ∀ r, r ∈ [ruleOf p3 v3, ruleOf p2 v2, ruleOf p1 v1] ↔ r ∈ rulesOf di) :
    ReplaceAll (ReplaceAll (ReplaceAll tpl p1 v1) p2 v2) p3 v3 = substituteAll di tpl := by
  rw [ReplaceAll_three tpl p1 v1 p2 v2 p3 v3 h1 h2 h3 o21 o31 o32]
  simp only [substituteAll]
  congr 1
  exact substScan_three_order _ _ _ _ hmem
    (show ("\x7b\x7b.Week\x7d\x7d" : String).data ≠ [] by decide)
    (show ("\x7b\x7b.WeekStart\x7d\x7d" : String).data ≠ [] by decide)
    (show ("\x7b\x7b.WeekEnd\x7d\x7d" : String).data ≠ [] by decide)
    (show NoOverlap ("\x7b\x7b.Week\x7d\x7d" : String).data
      ("\x7b\x7b.WeekStart\x7d\x7d" : String).data by decide)
    (show NoOverlap ("\x7b\x7b.Week\x7d\x7d" : String).data
      ("\x7b\x7b.WeekEnd\x7d\x7d" : String).data by decide)
    (show NoOverlap ("\x7b\x7b.WeekStart\x7d\x7d" : String).data
      ("\x7b\x7b.WeekEnd\x7d\x7d" : String).data by decide)
    tpl.data

/-- C5: `fillTemplate` returns the template with every occurrence of the
three placeholders replaced by the corresponding value of `getDateInfo` (the
one-pass substitution), and none of the three placeholders occurs in its
output; on the sample template with week 20 of 2024 the output is
`Week 20: 2024/05/13 - 2024/05/17`. -/
theorem C5_placeholders_replaced (env : Env) (tpl : String) (lastWeek : Bool)
    (h : env.loadLocation = .ok ()) :
    (∃ di out, getDateInfo env lastWeek = .ok di ∧ fillTemplate env tpl lastWeek = .ok out ∧
      out = substituteAll di tpl ∧
      ¬ "\x7b\x7b.Week\x7d\x7d".data <:+: out.data ∧
      ¬ "\x7b\x7b.WeekStart\x7d\x7d".data <:+: out.data ∧
      ¬ "\x7b\x7b.WeekEnd\x7d\x7d".data <:+: out.data) ∧
    fillTemplate sampleEnv
        "Week \x7b\x7b.Week\x7d\x7d: \x7b\x7b.WeekStart\x7d\x7d - \x7b\x7b.WeekEnd\x7d\x7d" false
      = .ok "Week 20: 2024/05/13 - 2024/05/17" := by
  refine ⟨?_, rfl⟩
  obtain ⟨di, hd⟩ : ∃ di, getDateInfo env lastWeek = .ok di := ⟨_, getDateInfo_ok env lastWeek h⟩
  have hv := getDateInfo_values env lastWeek di hd
  have hok := rulesOf_ok di hv
  have hout := ReplaceAll_any_order di tpl _ _ _ _ _ _
    (rule_week_ok di hv) (rule_weekStart_ok di hv) (rule_weekEnd_ok di hv)
    (by decide) (by decide) (by decide)
    (by intro r; simp only [rulesOf, List.mem_cons, List.mem_singleton, List.not_mem_nil,
          or_false]; tauto)
  refine ⟨di, _, hd, fillTemplate_eq env tpl lastWeek di hd, hout, ?_, ?_, ?_⟩
  · rw [hout]
    exact substScan_no_pattern isPlaceholderChar _ hok
      (ruleOf "\x7b\x7b.Week\x7d\x7d" di.Week) (by simp [rulesOf]) _ tpl.data (le_refl _)
  · rw [hout]
    exact substScan_no_pattern isPlaceholderChar _ hok
      (ruleOf "\x7b\x7b.WeekStart\x7d\x7d" di.WeekStart) (by simp [rulesOf]) _ tpl.data
      (le_refl _)
  · rw [hout]
    exact substScan_no_pattern isPlaceholderChar _ hok
      (ruleOf "\x7b\x7b.WeekEnd\x7d\x7d" di.WeekEnd) (by simp [rulesOf]) _ tpl.data
      (le_refl _)

theorem C5_placeholders_replaced_witness :
    sampleEnv.loadLocation = .ok () ∧
    (∃ di out, getDateInfo sampleEnv false = .ok di ∧
      fillTemplate sampleEnv "\x7b\x7b.Week\x7d\x7d / \x7b\x7b.Week\x7d\x7d" false = .ok out ∧
      out = substituteAll di "\x7b\x7b.Week\x7d\x7d / \x7b\x7b.Week\x7d\x7d" ∧
      ¬ "\x7b\x7b.Week\x7d\x7d".data <:+: out.data ∧
      ¬ "\x7b\x7b.WeekStart\x7d\x7d".data <:+: out.data ∧
      ¬ "\x7b\x7b.WeekEnd\x7d\x7d".data <:+: out.data) :=
  ⟨rfl, (C5_placeholders_replaced sampleEnv "\x7b\x7b.Week\x7d\x7d / \x7b\x7b.Week\x7d\x7d"
    false rfl).1⟩

/-- C6: the output of `fillTemplate` is obtained by the three global
replacements in each of the six possible orders. -/
theorem C6_order_independent (env : Env) (tpl : String) (lastWeek : Bool)
    (h : env.loadLocation = .ok ()) :
    ∃ di out, getDateInfo env lastWeek = .ok di ∧ fillTemplate env tpl lastWeek = .ok out ∧
      ReplaceAll (ReplaceAll (ReplaceAll tpl "\x7b\x7b.Week\x7d\x7d" di.Week)
        "\x7b\x7b.WeekStart\x7d\x7d" di.WeekStart) "\x7b\x7b.WeekEnd\x7d\x7d" di.WeekEnd = out ∧
      ReplaceAll (ReplaceAll (ReplaceAll tpl "\x7b\x7b.Week\x7d\x7d" di.Week)
        "\x7b\x7b.WeekEnd\x7d\x7d" di.WeekEnd) "\x7b\x7b.WeekStart\x7d\x7d" di.WeekStart = out ∧
      ReplaceAll (ReplaceAll (ReplaceAll tpl "\x7b\x7b.WeekStart\x7d\x7d" di.WeekStart)
        "\x7b\x7b.Week\x7d\x7d" di.Week) "\x7b\x7b.WeekEnd\x7d\x7d" di.WeekEnd = out ∧
      ReplaceAll (ReplaceAll (ReplaceAll tpl "\x7b\x7b.WeekStart\x7d\x7d" di.WeekStart)
        "\x7b\x7b.WeekEnd\x7d\x7d" di.WeekEnd) "\x7b\x7b.Week\x7d\x7d" di.Week = out ∧
      ReplaceAll (ReplaceAll (ReplaceAll tpl "\x7b\x7b.WeekEnd\x7d\x7d" di.WeekEnd)
        "\x7b\x7b.Week\x7d\x7d" di.Week) "\x7b\x7b.WeekStart\x7d\x7d" di.WeekStart = out ∧
      ReplaceAll (ReplaceAll (ReplaceAll tpl "\x7b\x7b.WeekEnd\x7d\x7d" di.WeekEnd)
        "\x7b\x7b.WeekStart\x7d\x7d" di.WeekStart) "\x7b\x7b.Week\x7d\x7d" di.Week = out := by
  obtain ⟨di, hd⟩ : ∃ di, getDateInfo env lastWeek = .ok di := ⟨_, getDateInfo_ok env lastWeek h⟩
  have hv := getDateInfo_values env lastWeek di hd
  have hW := rule_week_ok di hv
  have hS := rule_weekStart_ok di hv
  have hE := rule_weekEnd_ok di hv
  have key := ReplaceAll_any_order di tpl
  refine ⟨di, substituteAll di tpl, hd, ?_, ?_, ?_, ?_, ?_, ?_, ?_⟩
  · rw [fillTemplate_eq env tpl lastWeek di hd]
    congr 1
    apply key _ _ _ _ _ _ hW hS hE (by decide) (by decide) (by decide)
    intro r
    simp only [rulesOf, List.mem_cons, List.mem_singleton, List.not_mem_nil, or_false]
    tauto
  · apply key _ _ _ _ _ _ hW hS hE (by decide) (by decide) (by decide)
    intro r
    simp only [rulesOf, List.mem_cons, List.mem_singleton, List.not_mem_nil, or_false]
    tauto
  · apply key _ _ _ _ _ _ hW hE hS (by decide) (by decide) (by decide)
    intro r
    simp only [rulesOf, List.mem_cons, List.mem_singleton, List.not_mem_nil, or_false]
    tauto
  · apply key _ _ _ _ _ _ hS hW hE (by decide) (by decide) (by decide)
    intro r
    simp only [rulesOf, List.mem_cons, List.mem_singleton, List.not_mem_nil, or_false]
    tauto
  · apply key _ _ _ _ _ _ hS hE hW (by decide) (by decide) (by decide)
    intro r
    simp only [rulesOf, List.mem_cons, List.mem_singleton, List.not_mem_nil, or_false]
    tauto
  · apply key _ _ _ _ _ _ hE hW hS (by decide) (by decide) (by decide)
    intro r
    simp only [rulesOf, List.mem_cons, List.mem_singleton, List.not_mem_nil, or_false]
    tauto
  · apply key _ _ _ _ _ _ hE hS hW (by decide) (by decide) (by decide)
    intro r
    simp only [rulesOf, List.mem_cons, List.mem_singleton, List.not_mem_nil, or_false]

theorem C6_order_independent_witness :
    sampleEnv.loadLocation = .ok () ∧
    ∃ di out, getDateInfo sampleEnv false = .ok di ∧
      fillTemplate sampleEnv "a \x7b\x7b.WeekEnd\x7d\x7d b \x7b\x7b.Week\x7d\x7d" false
        = .ok out ∧
      ReplaceAll (ReplaceAll (ReplaceAll "a \x7b\x7b.WeekEnd\x7d\x7d b \x7b\x7b.Week\x7d\x7d"
        "\x7b\x7b.WeekEnd\x7d\x7d" di.WeekEnd)
        "\x7b\x7b.WeekStart\x7d\x7d" di.WeekStart) "\x7b\x7b.Week\x7d\x7d" di.Week = out :=
  ⟨rfl,
    match C6_order_independent sampleEnv
      "a \x7b\x7b.WeekEnd\x7d\x7d b \x7b\x7b.Week\x7d\x7d" false rfl with
    | ⟨di, out, h1, h2, _, _, _, _, _, h3⟩ => ⟨di, out, h1, h2, h3⟩⟩

/-! ## Different weeks, different reports -/

theorem year_decomp (y : Int) :
    ∃ f a b c : Int, 0 ≤ a ∧ a ≤ 3 ∧ 0 ≤ b ∧ b ≤ 24 ∧ 0 ≤ c ∧ c ≤ 3 ∧
      y = 400 * f + 100 * a + 4 * b + c + 1 :=
  ⟨(y - 1) / 400, (y - 1) % 400 / 100, (y - 1) % 100 / 4, (y - 1) % 4,
    by omega, by omega, by omega, by omega, by omega, by omega, by omega⟩

/-- The cycle decomposition of a day count is unique. -/
theorem decomp_unique (f a b c r f2 a2 b2 c2 r2 : Int)
    (ha : 0 ≤ a ∧ a ≤ 3) (hb : 0 ≤ b ∧ b ≤ 24) (hc : 0 ≤ c ∧ c ≤ 3) (hr0 : 0 ≤ r)
    (hr : r < 365 ∨ (r = 365 ∧ c = 3 ∧ (b < 24 ∨ a = 3)))
    (ha2 : 0 ≤ a2 ∧ a2 ≤ 3) (hb2 : 0 ≤ b2 ∧ b2 ≤ 24) (hc2 : 0 ≤ c2 ∧ c2 ≤ 3) (hr20 : 0 ≤ r2)
    (hr2 : r2 < 365 ∨ (r2 = 365 ∧ c2 = 3 ∧ (b2 < 24 ∨ a2 = 3)))
    (h : 146097 * f + 36524 * a + 1461 * b + 365 * c + r
      = 146097 * f2 + 36524 * a2 + 1461 * b2 + 365 * c2 + r2) :
    f2 = f ∧ a2 = a ∧ b2 = b ∧ c2 = c ∧ r2 = r := by
  replace h : 146097 * f + (36524 * a + (1461 * b + (365 * c + r)))
      = 146097 * f2 + (36524 * a2 + (1461 * b2 + (365 * c2 + r2))) := by
    clear hr hr2
    omega
  have hZ : 0 ≤ 365 * c + r ∧ 365 * c + r ≤ 1460
      ∧ (365 * c + r = 1460 → b < 24 ∨ a = 3) := by
    clear h hr2 hr20 hc2 hb2 ha2
    omega
  have hZ2 : 0 ≤ 365 * c2 + r2 ∧ 365 * c2 + r2 ≤ 1460
      ∧ (365 * c2 + r2 = 1460 → b2 < 24 ∨ a2 = 3) := by
    clear h hr hr0 hc hb ha hZ
    omega
  have ecr : 365 * c + r = 365 * c2 + r2 → c2 = c ∧ r2 = r := by
    clear h hZ hZ2 ha ha2 hb hb2
    omega
  generalize 365 * c + r = z at hZ h ecr
  generalize 365 * c2 + r2 = z2 at hZ2 h ecr
  clear hr hr2 hr0 hr20 hc hc2
  have hY : 0 ≤ 1461 * b + z ∧ 1461 * b + z ≤ 36524 ∧ (1461 * b + z = 36524 → a = 3) := by
    clear h hZ2 ecr hb2 ha2
    omega
  have hY2 : 0 ≤ 1461 * b2 + z2 ∧ 1461 * b2 + z2 ≤ 36524
      ∧ (1461 * b2 + z2 = 36524 → a2 = 3) := by
    clear h hZ ecr hb ha hY
    omega
  have ebz : 1461 * b + z = 1461 * b2 + z2 → b2 = b ∧ z2 = z := by
    clear h hY hY2 ecr ha ha2
    omega
  generalize 1461 * b + z = y at hY h ebz
  generalize 1461 * b2 + z2 = y2 at hY2 h ebz
  clear hZ hZ2 hb hb2
  have eay : 36524 * a + y = 36524 * a2 + y2 → a2 = a ∧ y2 = y := by
    clear h ebz ecr
    omega
  have hX : 0 ≤ 36524 * a + y ∧ 36524 * a + y < 146097 := by
    clear h ebz ecr eay hY2 ha2
    omega
  have hX2 : 0 ≤ 36524 * a2 + y2 ∧ 36524 * a2 + y2 < 146097 := by
    clear h ebz ecr eay hY ha hX
    omega
  have efx : f2 = f ∧ 36524 * a + y = 36524 * a2 + y2 := by
    clear ebz ecr eay hY hY2 ha ha2
    omega
  obtain ⟨ef, hx⟩ := efx
  obtain ⟨ea, ey⟩ := eay hx
  subst ey
  obtain ⟨eb, ez⟩ := ebz rfl
  subst ez
  obtain ⟨ec, er⟩ := ecr rfl
  exact ⟨ef, ea, eb, ec, er⟩

/-- The first day of a year plus a day of that year is mapped back to the
year and that day. -/
theorem absYearDay_of (y r : Int) (h0 : 0 ≤ r)
    (h1 : r < 365 + (if isLeap y = true then 1 else 0)) :
    absYearDay (daysSinceEpoch y + r) = (y, r) := by
  obtain ⟨f, a, b, c, ha0, ha, hb0, hb, hc0, hc, hy⟩ := year_decomp y
  subst hy
  have hl := isLeap_decomp f a b c ⟨ha0, ha⟩ ⟨hb0, hb⟩ ⟨hc0, hc⟩
  have hr : r < 365 ∨ (r = 365 ∧ c = 3 ∧ (b < 24 ∨ a = 3)) := by
    split at h1
    · rename_i h
      rw [hl] at h
      omega
    · omega
  rw [daysSinceEpoch_decomp f a b c ⟨ha0, ha⟩ ⟨hb0, hb⟩ ⟨hc0, hc⟩]
  obtain ⟨f2, a2, b2, c2, r2, ha20, ha2, hb20, hb2, hc20, hc2, hr20, hd, he, hr2⟩ :=
    absYearDay_decomp (146097 * f + 36524 * a + 1461 * b + 365 * c + r)
  rw [he]
  obtain ⟨ef, ea, eb, ec, er⟩ := decomp_unique f a b c r f2 a2 b2 c2 r2 ⟨ha0, ha⟩ ⟨hb0, hb⟩
    ⟨hc0, hc⟩ h0 hr ⟨ha20, ha2⟩ ⟨hb20, hb2⟩ ⟨hc20, hc2⟩ hr20 hr2 hd
  rw [ef, ea, eb, ec, er]

theorem daysSinceEpoch_succ (y : Int) :
    daysSinceEpoch (y + 1) = daysSinceEpoch y + 365 + (if isLeap y = true then 1 else 0) := by
  obtain ⟨f, a, b, c, ha0, ha, hb0, hb, hc0, hc, hy⟩ := year_decomp y
  subst hy
  have hl := isLeap_decomp f a b c ⟨ha0, ha⟩ ⟨hb0, hb⟩ ⟨hc0, hc⟩
  rw [daysSinceEpoch_decomp f a b c ⟨ha0, ha⟩ ⟨hb0, hb⟩ ⟨hc0, hc⟩]
  by_cases h3 : c < 3
  · have e : 400 * f + 100 * a + 4 * b + c + 1 + 1
        = 400 * f + 100 * a + 4 * b + (c + 1) + 1 := by omega
    rw [e, daysSinceEpoch_decomp f a b (c + 1) ⟨ha0, ha⟩ ⟨hb0, hb⟩ ⟨by omega, by omega⟩]
    rw [if_neg (by rw [hl]; omega)]
    omega
  · by_cases h24 : b < 24
    · have e : 400 * f + 100 * a + 4 * b + c + 1 + 1
          = 400 * f + 100 * a + 4 * (b + 1) + 0 + 1 := by omega
      rw [e, daysSinceEpoch_decomp f a (b + 1) 0 ⟨ha0, ha⟩ ⟨by omega, by omega⟩
        ⟨by omega, by omega⟩]
      rw [if_pos (by rw [hl]; omega)]
      omega
    · by_cases ha3 : a < 3
      · have e : 400 * f + 100 * a + 4 * b + c + 1 + 1
            = 400 * f + 100 * (a + 1) + 4 * 0 + 0 + 1 := by omega
        rw [e, daysSinceEpoch_decomp f (a + 1) 0 0 ⟨by omega, by omega⟩ ⟨by omega, by omega⟩
          ⟨by omega, by omega⟩]
        rw [if_neg (by rw [hl]; omega)]
        omega
      · have e : 400 * f + 100 * a + 4 * b + c + 1 + 1
            = 400 * (f + 1) + 100 * 0 + 4 * 0 + 0 + 1 := by omega
        rw [e, daysSinceEpoch_decomp (f + 1) 0 0 0 ⟨by omega, by omega⟩ ⟨by omega, by omega⟩
          ⟨by omega, by omega⟩]
        rw [if_pos (by rw [hl]; omega)]
        omega

/-- Two Monday-based weeks at most five weeks apart have different ISO week
numbers, unless they are the same week. -/
theorem week_number_separates (w1 w2 : Int) (h1 : w1 ≤ w2) (h2 : w2 ≤ w1 + 5)
    (hwk : (absYearDay (7 * w1 + 3)).2 / 7 = (absYearDay (7 * w2 + 3)).2 / 7) : w1 = w2 := by
  have hs := absYearDay_sound (7 * w1 + 3)
  have hr := absYearDay_range (7 * w1 + 3)
  generalize hyr : absYearDay (7 * w1 + 3) = yr at hs hr hwk
  obtain ⟨y, r⟩ := yr
  simp only at hs hr hwk
  have hsucc := daysSinceEpoch_succ y
  generalize hlen : (if isLeap y = true then (1 : Int) else 0) = len at hr hsucc
  have hlen2 : 0 ≤ len ∧ len ≤ 1 := by
    rw [← hlen]
    split <;> omega
  by_cases hin : r + 7 * (w2 - w1) < 365 + len
  · have e : 7 * w2 + 3 = daysSinceEpoch y + (r + 7 * (w2 - w1)) := by omega
    rw [e, absYearDay_of y (r + 7 * (w2 - w1)) (by omega) (by rw [hlen]; exact hin)] at hwk
    simp only at hwk
    omega
  · have e : 7 * w2 + 3 = daysSinceEpoch (y + 1) + (r + 7 * (w2 - w1) - (365 + len)) := by
      omega
    have hlt : r + 7 * (w2 - w1) - (365 + len)
        < 365 + (if isLeap (y + 1) = true then 1 else 0) := by
      split <;> omega
    rw [e, absYearDay_of (y + 1) _ (by omega) hlt] at hwk
    simp only at hwk
    omega

theorem digitVal_ofNat (k : Nat) (h : k < 10) : digitVal (Char.ofNat (48 + k)) = k := by
  interval_cases k <;> rfl

theorem digit_ne_minus (c : Char) (h : isDigitChar c) : c ≠ '-' := by
  obtain ⟨k, hk, e⟩ := h
  subst e
  interval_cases k <;> decide

theorem decimalValue_snoc (l : List Char) (c : Char) :
    decimalValue (l ++ [c]) = 10 * decimalValue l + digitVal c := by
  simp [decimalValue, List.foldl_append]

theorem digitsAux_value (fuel n : Nat) (acc : List Char) (h : n < fuel) :
    ∃ ds, digitsAux fuel n acc = ds ++ acc ∧ decimalValue ds = n ∧ ds ≠ [] ∧
      ∀ c ∈ ds, isDigitChar c := by
  induction fuel generalizing n acc with
  | zero => omega
  | succ fuel ih =>
    simp only [digitsAux]
    split
    · rename_i h0
      refine ⟨[Char.ofNat (48 + n % 10)], rfl, ?_, by simp, ?_⟩
      · have : decimalValue [Char.ofNat (48 + n % 10)]
            = digitVal (Char.ofNat (48 + n % 10)) := by
          simp [decimalValue]
        rw [this, digitVal_ofNat _ (Nat.mod_lt _ (by decide))]
        omega
      · intro c hc
        simp only [List.mem_singleton] at hc
        exact ⟨n % 10, Nat.mod_lt _ (by decide), hc⟩
    · rename_i h0
      obtain ⟨ds, e, hv, _, hd⟩ := ih (n / 10) (Char.ofNat (48 + n % 10) :: acc) (by omega)
      refine ⟨ds ++ [Char.ofNat (48 + n % 10)], ?_, ?_, by simp, ?_⟩
      · rw [e]
        simp
      · rw [decimalValue_snoc, hv, digitVal_ofNat _ (Nat.mod_lt _ (by decide))]
        omega
      · intro c hc
        rcases List.mem_append.mp hc with hc | hc
        · exact hd c hc
        · simp only [List.mem_singleton] at hc
          exact ⟨n % 10, Nat.mod_lt _ (by decide), hc⟩

theorem decimal_value (n : Nat) :
    decimalValue (decimal n) = n ∧ decimal n ≠ [] ∧ ∀ c ∈ decimal n, isDigitChar c := by
  obtain ⟨ds, e, hv, hne, hd⟩ := digitsAux_value (n + 1) n [] (by omega)
  simp only [List.append_nil] at e
  simp only [decimal, e]
  exact ⟨hv, hne, hd⟩

theorem decimalValue_zeros (k : Nat) (l : List Char) :
    decimalValue (List.replicate k '0' ++ l) = decimalValue l := by
  induction k with
  | zero => rfl
  | succ k ih =>
    simp only [decimalValue, List.replicate_succ, List.cons_append, List.foldl_cons] at ih ⊢
    exact ih

theorem padded_head (k n : Nat) : (List.replicate k '0' ++ decimal n).head? ≠ some '-' := by
  intro h
  have hm : '-' ∈ List.replicate k '0' ++ decimal n := List.mem_of_mem_head? h
  rcases List.mem_append.mp hm with hm | hm
  · have := (List.mem_replicate.mp hm).2
    exact absurd this (by decide)
  · exact digit_ne_minus _ ((decimal_value n).2.2 _ hm) rfl

/-- The number is read back from its formatted form. -/
theorem parseInt_appendInt (x : Int) (w : Nat) : parseInt (appendInt x w) = x := by
  simp only [appendInt]
  split
  · simp only [parseInt, List.head?_cons, if_true, List.tail_cons, decimalValue_zeros,
      (decimal_value _).1]
    omega
  · simp only [parseInt, padded_head, if_false, decimalValue_zeros, (decimal_value _).1]
    omega

theorem appendInt_inj (x y : Int) (w : Nat) (h : appendInt x w = appendInt y w) : x = y := by
  rw [← parseInt_appendInt x w, h, parseInt_appendInt]

theorem sprintf02d_inj (x y : Int) (hx : 0 ≤ x) (hy : 0 ≤ y) (h : sprintf02d x = sprintf02d y) :
    x = y := by
  have e : ∀ z : Int, 0 ≤ z → decimalValue (sprintf02d z).data = z.natAbs := by
    intro z hz
    simp only [sprintf02d, if_neg (not_lt.mpr hz), decimalValue_zeros, (decimal_value _).1]
  have := e x hx
  rw [h, e y hy] at this
  omega

theorem absDate_ranges (a : Int) :
    1 ≤ (absDate a).month ∧ (absDate a).month ≤ 12 ∧ 1 ≤ (absDate a).day ∧
      (absDate a).day ≤ 31 := by
  obtain ⟨hy0, hy1⟩ := absYearDay_range (a / secondsPerDay)
  obtain ⟨m, dd, e, h1, h2, h3, h4, _⟩ :=
    monthDay_spec (isLeap (absYearDay (a / secondsPerDay)).1)
      (absYearDay (a / secondsPerDay)).2 hy0 hy1
  simp only [absDate, e]
  exact ⟨h1, h2, h3, h4⟩

theorem appendInt_month_length (m : Int) (h1 : 1 ≤ m) (h2 : m ≤ 12) :
    (appendInt m 2).length = 2 := by
  interval_cases m <;> rfl

/-- The month label determines the year and the month. -/
theorem Format_month_inj (s t : Time) (h : s.Format "2006-01" = t.Format "2006-01") :
    (absDate s.abs).year = (absDate t.abs).year ∧
      (absDate s.abs).month = (absDate t.abs).month := by
  rw [Format_month, Format_month] at h
  have hl := congrArg String.data h
  simp only [List.append_nil] at hl
  obtain ⟨s1, s2, _, _⟩ := absDate_ranges s.abs
  obtain ⟨t1, t2, _, _⟩ := absDate_ranges t.abs
  have hlen : ('-' :: appendInt (absDate s.abs).month 2).length
      = ('-' :: appendInt (absDate t.abs).month 2).length := by
    simp only [List.length_cons, appendInt_month_length _ s1 s2, appendInt_month_length _ t1 t2]
  obtain ⟨e1, e2⟩ := List.append_inj' hl hlen
  simp only [List.cons.injEq, true_and] at e2
  exact ⟨appendInt_inj _ _ _ e1, appendInt_inj _ _ _ e2⟩

/-- Instants with the same month label and the same two-digit week lie in
the same ISO week. -/
theorem same_labels_same_week (s t : Time) (hm : s.Format "2006-01" = t.Format "2006-01")
    (hwk : sprintf02d s.ISOWeek.2 = sprintf02d t.ISOWeek.2) : s.ISOWeek = t.ISOWeek := by
  obtain ⟨hy, hmo⟩ := Format_month_inj s t hm
  have hn : s.ISOWeek.2 = t.ISOWeek.2 :=
    sprintf02d_inj _ _ (by have := (ISOWeek_range s).1; omega)
      (by have := (ISOWeek_range t).1; omega) hwk
  have hs := absDate_day s.abs
  have ht := absDate_day t.abs
  rw [hy, hmo] at hs
  obtain ⟨_, _, s3, s4⟩ := absDate_ranges s.abs
  obtain ⟨_, _, t3, t4⟩ := absDate_ranges t.abs
  have hclose : s.abs / 86400 - t.abs / 86400 ≤ 30 ∧ t.abs / 86400 - s.abs / 86400 ≤ 30 := by
    omega
  rw [ISOWeek_eq, ISOWeek_eq] at hn
  simp only at hn
  apply ISOWeek_congr
  by_cases hle : s.abs / 86400 / 7 ≤ t.abs / 86400 / 7
  · exact week_number_separates _ _ hle (by omega) (by omega)
  · exact (week_number_separates _ _ (by omega) (by omega) (by omega)).symm

theorem reportFileOf_inj (cfg : GoWeekConfig) (di1 di2 : DateInfo)
    (h : reportFileOf cfg di1 = reportFileOf cfg di2) :
    di1.Month = di2.Month ∧ di1.Week = di2.Week := by
  simp only [reportFileOf, monthDirOf, filepathJoin, List.append_assoc,
    List.append_cancel_left_eq, List.cons_append, List.nil_append, List.cons.injEq,
    and_true] at h
  obtain ⟨hm, hf⟩ := h
  refine ⟨hm, ?_⟩
  have hd := congrArg String.data hf
  simp only [String.data_append, List.append_assoc, List.append_cancel_left_eq,
    List.append_cancel_right_eq] at hd
  exact String.ext hd

theorem reportFileOf_length (cfg : GoWeekConfig) (di : DateInfo) :
    (reportFileOf cfg di).length = cfg.DocsDir.length + 2 ∧
      (monthDirOf cfg di).length = cfg.DocsDir.length + 1 := by
  simp [reportFileOf, monthDirOf, filepathJoin]

/-- C10: reference instants of different ISO weeks get different pairs of
month label and week, hence different report paths under one reports root;
and whatever `writeToFile` does for the first instant, it leaves the lookup
and the outcome of `os.Stat` of the second instant's report path as they were,
so the file of one week never makes the report of another week appear to
exist. -/
theorem C10_different_weeks_different_reports (env1 env2 : Env) (lastWeek1 lastWeek2 : Bool)
    (cfg : GoWeekConfig)
    (h1 : env1.loadLocation = .ok ()) (h2 : env2.loadLocation = .ok ())
    (hc : env1.config = .ok cfg)
    (hw : (referenceInstant env1 lastWeek1).ISOWeek ≠ (referenceInstant env2 lastWeek2).ISOWeek) :
    ∃ di1 di2, getDateInfo env1 lastWeek1 = .ok di1 ∧ getDateInfo env2 lastWeek2 = .ok di2 ∧
      (di1.Month, di1.Week) ≠ (di2.Month, di2.Week) ∧
      reportFileOf cfg di1 ≠ reportFileOf cfg di2 ∧
      ∀ (fs : Node) (content : String),
        (writeToFile env1 fs content lastWeek1).2.lookup (reportFileOf cfg di2)
          = fs.lookup (reportFileOf cfg di2) ∧
        osStat (writeToFile env1 fs content lastWeek1).2 (reportFileOf cfg di2)
          = osStat fs (reportFileOf cfg di2) := by
  have hd1 := getDateInfo_ok env1 lastWeek1 h1
  have hd2 := getDateInfo_ok env2 lastWeek2 h2
  have hne : ∀ di1 di2 : DateInfo, getDateInfo env1 lastWeek1 = .ok di1 →
      getDateInfo env2 lastWeek2 = .ok di2 → ¬ (di1.Month = di2.Month ∧ di1.Week = di2.Week) := by
    intro di1 di2 e1 e2 hmw
    rw [hd1] at e1
    rw [hd2] at e2
    simp only [Except.ok.injEq] at e1 e2
    subst e1 e2
    exact hw (same_labels_same_week _ _ hmw.1 hmw.2)
  obtain ⟨di1, hdi1⟩ : ∃ di, getDateInfo env1 lastWeek1 = .ok di := ⟨_, hd1⟩
  obtain ⟨di2, hdi2⟩ : ∃ di, getDateInfo env2 lastWeek2 = .ok di := ⟨_, hd2⟩
  have hpath : reportFileOf cfg di1 ≠ reportFileOf cfg di2 :=
    fun e => hne di1 di2 hdi1 hdi2 (reportFileOf_inj cfg di1 di2 e)
  refine ⟨di1, di2, hdi1, hdi2, ?_, hpath, ?_⟩
  · intro e
    simp only [Prod.mk.injEq] at e
    exact hne di1 di2 hdi1 hdi2 e
  · intro fs content
    rw [writeToFile_eq env1 lastWeek1 cfg di1 hc hdi1]
    have hlen : (reportFileOf cfg di2).length = (reportFileOf cfg di1).length := by
      rw [(reportFileOf_length cfg di2).1, (reportFileOf_length cfg di1).1]
    have g1 : ¬ reportFileOf cfg di2 <+: monthDirOf cfg di1 := by
      intro hpre
      have := hpre.length_le
      rw [(reportFileOf_length cfg di2).1, (reportFileOf_length cfg di1).2] at this
      omega
    have g2 : ¬ reportFileOf cfg di2 <+: reportFileOf cfg di1 :=
      fun hpre => hpath (hpre.eq_of_length hlen).symm
    have g3 : ¬ reportFileOf cfg di1 <+: reportFileOf cfg di2 :=
      fun hpre => hpath (hpre.eq_of_length hlen.symm)
    exact ⟨writeReport_frame _ _ _ _ _ g1 g2, writeReport_frame_stat _ _ _ _ _ g1 g2 g3⟩

theorem C10_different_weeks_different_reports_witness :
    sampleEnv.loadLocation = .ok () ∧ newYearEnv.loadLocation = .ok () ∧
    (referenceInstant sampleEnv false).ISOWeek ≠ (referenceInstant newYearEnv true).ISOWeek ∧
    ∃ di1 di2, getDateInfo sampleEnv false = .ok di1 ∧ getDateInfo newYearEnv true = .ok di2 ∧
      (di1.Month, di1.Week) ≠ (di2.Month, di2.Week) ∧
      reportFileOf { DocsDir := ["docs"], TyporaPath := "typora" } di1
        ≠ reportFileOf { DocsDir := ["docs"], TyporaPath := "typora" } di2 ∧
      ∀ (fs : Node) (content : String),
        (writeToFile sampleEnv fs content false).2.lookup
            (reportFileOf { DocsDir := ["docs"], TyporaPath := "typora" } di2)
          = fs.lookup (reportFileOf { DocsDir := ["docs"], TyporaPath := "typora" } di2) ∧
        osStat (writeToFile sampleEnv fs content false).2
            (reportFileOf { DocsDir := ["docs"], TyporaPath := "typora" } di2)
          = osStat fs (reportFileOf { DocsDir := ["docs"], TyporaPath := "typora" } di2) :=
  ⟨rfl, rfl, by decide,
    C10_different_weeks_different_reports sampleEnv newYearEnv false true
      { DocsDir := ["docs"], TyporaPath := "typora" } rfl rfl rfl (by decide)⟩

end GoWeek
